import Mathlib

/-!
Verification of the search / constraint-satisfaction engine of the
`genetic-algorithms-vis` repository against its natural-language specification.

The JavaScript core (`src/core/algorithms.js`, `src/core/constructive-algorithms.js`,
`src/core/problems/n-queens.js`) is shallowly embedded here:

* JS numbers used as costs / temperatures become `ℚ`;
* the ambient randomness (`Math.random()`) becomes explicit oracle streams
  (`ℕ → ℕ` for index draws, `ℕ → Bool` for accept/reject comparisons);
* each generator (`function*`) becomes a fuel-indexed function producing the
  list of yielded step records (and, where relevant, the generator's return value);
* `Array.prototype.sort` with the cost comparator becomes `List.insertionSort`;
* in-place mutation plus cached-cost invalidation becomes ordinary value passing
  (object identity plays no observable role in the emitted records);
* the transcendental acceptance probability `Math.exp` of simulated annealing is
  embedded over `ℝ` via `Real.exp`.

Step records are embedded with exactly the fields the source attaches to each
yielded object (`state`, `note`, `evaluations`, and where present `restartCount`
and `population`); no extra structured status is invented, since one of the
checked claims is precisely about the absence of such a field.
-/

namespace GAVis

open List

/-- String prefix test (on the underlying character list); used to classify the
free-text `note` field of emitted step records. -/
def strStarts (pre s : String) : Prop := pre.data <+: s.data

instance (pre s : String) : Decidable (strStarts pre s) :=
  inferInstanceAs (Decidable (_ <+: _))

/-! ## Simulated annealing (`algorithms.js`, `simulatedAnnealing`, lines 243-301)

One loop iteration of the `while (true)` body.  The random neighbor draw is
`P.randomNeighbor current (rng t)` and the outcome of the comparison
`Math.random() < Math.exp(deltaE / temp)` (lines 275-276) is the oracle bit
`acc t`.  The thresholds `0.0001` (line 258) and `0.01` (line 289) are the
source's literals. -/

/-- Problem contract used by simulated annealing: `cost`, `isSolution`,
`getRandomNeighbor` (the latter consuming one random draw). -/
structure SAProblem (S : Type) where
  cost : S → ℚ
  isSolution : S → Bool
  randomNeighbor : S → ℕ → S

/-- Mutable loop state of `simulatedAnnealing`: current state, temperature,
evaluation counter, and the position in the random stream. -/
structure SAState (S : Type) where
  current : S
  temp : ℚ
  evaluations : ℕ
  t : ℕ
deriving DecidableEq

/-- One iteration of the `simulatedAnnealing` loop body.  Returns `none` when
the iteration hits one of the `return` statements (solution found, frozen
below `0.0001`, or frozen/solved after cooling below `0.01`), and `some` of
the updated loop state otherwise.  The cooling `temp *= coolingRate`
(line 286) happens exactly once, after the accept/reject decision. -/
def saIter {S : Type} (P : SAProblem S) (coolingRate : ℚ) (rng : ℕ → ℕ)
    (acc : ℕ → Bool) (st : SAState S) : Option (SAState S) :=
  if P.isSolution st.current then none
  else if st.temp < 1/10000 then none
  else
    let next := P.randomNeighbor st.current (rng st.t)
    let deltaE := P.cost st.current - P.cost next
    let cur := if 0 < deltaE then next else if acc st.t then next else st.current
    let temp := st.temp * coolingRate
    if temp < 1/100 then none
    else some ⟨cur, temp, st.evaluations + 1, st.t + 1⟩

/-- Loop state of `simulatedAnnealing` after `n` full loop iterations
(`none` once the run has returned). -/
def saStates {S : Type} (P : SAProblem S) (coolingRate : ℚ) (rng : ℕ → ℕ)
    (acc : ℕ → Bool) (st0 : SAState S) : ℕ → Option (SAState S)
  | 0 => some st0
  | n + 1 => (saStates P coolingRate rng acc st0 n).bind (saIter P coolingRate rng acc)

/-- Whether `simulatedAnnealing` reaches one of its `return` statements within
`fuel` loop iterations. -/
def saRunTerminated {S : Type} (P : SAProblem S) (coolingRate : ℚ) (rng : ℕ → ℕ)
    (acc : ℕ → Bool) : ℕ → SAState S → Bool
  | 0, _ => false
  | fuel + 1, st =>
    match saIter P coolingRate rng acc st with
    | none => true
    | some st' => saRunTerminated P coolingRate rng acc fuel st'

/-- Acceptance probability for a non-improving neighbor,
`Math.exp(deltaE / temp)` (line 275 of `algorithms.js`). -/
noncomputable def saAcceptProbability (deltaE temp : ℝ) : ℝ :=
  Real.exp (deltaE / temp)

/-- Trivial problem on `Unit` whose single state is never a solution; used to
instantiate run-level theorems at a concrete input. -/
def unitSAProblem : SAProblem Unit where
  cost := fun _ => 1
  isSolution := fun _ => false
  randomNeighbor := fun _ _ => ()

/-! ## Hill climbing (`algorithms.js`, `hillClimbing`, lines 6-84)

The generator is embedded as a fuel-indexed function returning the list of
yielded records.  `Math.random()` tie-breaking (line 45) consumes `rng t` as
the chosen index, and each `problem.randomState(params)` on restart consumes
one draw as well. -/

/-- Problem contract used by `hillClimbing`: per-state `cost`,
`problem.isSolution`, `state.getNeighbors()` and `problem.randomState`
(consuming one random draw). -/
structure HCProblem (S : Type) where
  cost : S → ℚ
  isSolution : S → Bool
  neighbors : S → List S
  randomState : ℕ → S

/-- Parameters of `hillClimbing`: `maxSideways`, `maxRestarts` and the
optional `sidewaysTolerance` (`params.sidewaysTolerance || 0`, line 48). -/
structure HCParams where
  maxSideways : ℕ
  maxRestarts : ℕ
  sidewaysTolerance : ℚ

/-- Step record yielded by `hillClimbing` / `stochasticHillClimbing`:
exactly the fields `{ state, note, restartCount, evaluations }` of the
source's yield expressions.  There is no `terminal` flag and no structured
status field — the `note` string is the only outcome indicator. -/
structure HCRecord (S : Type) where
  state : S
  note : String
  restartCount : ℕ
  evaluations : ℕ
deriving DecidableEq

/-- Best-neighbor pool (lines 29-42): scan the neighbor list keeping every
neighbor whose cost equals the minimum seen so far (`dataset`), resetting the
pool whenever a strictly lower cost appears. -/
def hcDataset {S : Type} (cost : S → ℚ) : List S → List S
  | [] => []
  | n :: ns =>
    (ns.foldl
      (fun (acc : ℚ × List S) x =>
        if cost x < acc.1 then (cost x, [x])
        else if cost x = acc.1 then (acc.1, acc.2 ++ [x])
        else acc)
      (cost n, [n])).2

/-- Body of `hillClimbing` from the top of the inner climb loop (line 19),
with the outer restart loop (lines 15-83) inlined in the stuck branches.
Arguments after the fuel: current state, `sidewaysMoves`, `restarts`,
`evaluations`, position in the random stream. -/
def hcClimb {S : Type} (P : HCProblem S) (p : HCParams) (rng : ℕ → ℕ) :
    ℕ → S → ℕ → ℕ → ℕ → ℕ → List (HCRecord S)
  | 0, _, _, _, _, _ => []
  | fuel + 1, current, sideways, restarts, evals, t =>
    if P.isSolution current then
      [⟨current, "Solution Found!", restarts, evals⟩]
    else
      let ns := P.neighbors current
      let evals2 := evals + ns.length
      let dataset := hcDataset P.cost ns
      let next := dataset.getD (rng t % dataset.length) current
      if P.cost next < P.cost current then
        ⟨next, "Improved", restarts, evals2⟩ ::
          hcClimb P p rng fuel next 0 restarts evals2 (t + 1)
      else if P.cost next = P.cost current ∨
          (0 < p.sidewaysTolerance ∧
            P.cost next ≤ P.cost current * (1 + p.sidewaysTolerance)) then
        if sideways < p.maxSideways then
          ⟨next,
            (if P.cost next = P.cost current then "Sideways" else "Sideways (≈)") ++
              (" move " ++ (toString (sideways + 1) ++ ("/" ++ toString p.maxSideways))),
            restarts, evals2⟩ ::
            hcClimb P p rng fuel next (sideways + 1) restarts evals2 (t + 1)
        else if restarts < p.maxRestarts then
          ⟨current, "Stuck (Local Maxima) - Restarting...", restarts, evals2⟩ ::
            ⟨P.randomState (rng t), "Restart #" ++ toString (restarts + 1),
              restarts + 1, evals2 + 1⟩ ::
            hcClimb P p rng fuel (P.randomState (rng t)) 0 (restarts + 1)
              (evals2 + 1) (t + 1)
        else
          [⟨current, "Stuck (Local Maxima)", restarts, evals2⟩]
      else if restarts < p.maxRestarts then
        ⟨current, "Stuck (Local Maxima) - Restarting...", restarts, evals2⟩ ::
          ⟨P.randomState (rng t), "Restart #" ++ toString (restarts + 1),
            restarts + 1, evals2 + 1⟩ ::
          hcClimb P p rng fuel (P.randomState (rng t)) 0 (restarts + 1)
            (evals2 + 1) (t + 1)
      else
        [⟨current, "Stuck (Local Maxima)", restarts, evals2⟩]

/-- The full `hillClimbing` record trace: the initial yield (line 17, with
`restarts = 0` the note is `Initial State`) followed by the climb loop. -/
def hillClimbing {S : Type} (P : HCProblem S) (p : HCParams) (rng : ℕ → ℕ)
    (fuel : ℕ) (init : S) : List (HCRecord S) :=
  ⟨init, "Initial State", 0, 0⟩ :: hcClimb P p rng fuel init 0 0 0 0

/-- A record is an accepted move when its note is `Improved` or any
`Sideways` variant (the only notes emitted when `current` is replaced by a
neighbor). -/
def hcAccepted {S : Type} (r : HCRecord S) : Prop :=
  r.note = "Improved" ∨ strStarts "Sideways" r.note

/-- A record accepted purely via the cost tolerance, note `Sideways (≈) ...`
(line 60). -/
def hcToleranceAccepted {S : Type} (r : HCRecord S) : Prop :=
  strStarts "Sideways (≈)" r.note

/-- Adjacent-record cost relation for the amended C3: an accepted record that
was not accepted purely via tolerance has cost at most the cost of the state
carried by the immediately preceding record. -/
def hcMono {S : Type} (cost : S → ℚ) (r rnext : HCRecord S) : Prop :=
  hcAccepted rnext → ¬ hcToleranceAccepted rnext → cost rnext.state ≤ cost r.state

/-- Adjacent-record cost relation as claimed by C3: every accepted record,
tolerance-accepted ones included, has cost at most the preceding record's
cost, unless the preceding record announces a restart. -/
def hcMonoClaimed {S : Type} (cost : S → ℚ) (r rnext : HCRecord S) : Prop :=
  hcAccepted rnext → ¬ strStarts "Restart #" r.note → cost rnext.state ≤ cost r.state

/-- The complete set of note shapes `hillClimbing` can emit; the free-text
note is the only outcome information in a record. -/
def hcNoteShape (note : String) : Prop :=
  note = "Initial State" ∨ note = "Solution Found!" ∨ note = "Improved" ∨
  strStarts "Sideways" note ∨ strStarts "Restart #" note ∨
  note = "Stuck (Local Maxima)" ∨ note = "Stuck (Local Maxima) - Restarting..."

instance {S : Type} (r : HCRecord S) : Decidable (hcAccepted r) :=
  inferInstanceAs (Decidable (_ ∨ _))

instance {S : Type} (r : HCRecord S) : Decidable (hcToleranceAccepted r) :=
  inferInstanceAs (Decidable (strStarts _ _))

instance {S : Type} (cost : S → ℚ) (r rnext : HCRecord S) :
    Decidable (hcMono cost r rnext) :=
  inferInstanceAs (Decidable (_ → _ → _))

instance {S : Type} (cost : S → ℚ) (r rnext : HCRecord S) :
    Decidable (hcMonoClaimed cost r rnext) :=
  inferInstanceAs (Decidable (_ → _ → _))

instance (note : String) : Decidable (hcNoteShape note) :=
  inferInstanceAs (Decidable (_ ∨ _))

/-- Concrete four-state problem (`0 → 1 → 2 → 3` with costs `10, 8, 9, 100`):
under `sidewaysTolerance = 1/5` hill climbing accepts `2` (cost `9`) from `1`
(cost `8`) as a `Sideways (≈)` move, increasing the accepted cost. -/
def hcDemoProblem : HCProblem ℕ where
  cost := fun n => if n = 0 then 10 else if n = 1 then 8 else if n = 2 then 9 else 100
  isSolution := fun _ => false
  neighbors := fun n => [n + 1]
  randomState := fun _ => 0

/-- Concrete problem whose start state `7` has the solution `8` as its only
neighbor: the run ends with the `Solution Found!` terminal record. -/
def hcSolvedProblem : HCProblem ℕ where
  cost := fun n => if n = 8 then 0 else 1
  isSolution := fun n => n == 8
  neighbors := fun n => [n + 1]
  randomState := fun _ => 7

/-- Concrete problem whose start state `8` only has the worse neighbor `9`:
the run ends with the `Stuck (Local Maxima)` terminal record. -/
def hcStuckProblem : HCProblem ℕ where
  cost := fun n => if n = 8 then 1 else 5
  isSolution := fun _ => false
  neighbors := fun n => [n + 1]
  randomState := fun _ => 8

/-! ## Genetic algorithm (`algorithms.js`, `geneticAlgorithm`, lines 454-552)

The generator is embedded as a function producing the yielded record list.
`problem.crossover` and `problem.mutate` are problem-supplied and each
consumes one random draw; `state.clone()` (used for the elite, line 513)
becomes an abstract `clone : S → S` since the only observable use is the
cloned value.  `Array.prototype.sort((a, b) => a.cost - b.cost)` (lines
477/541) is embedded as `List.insertionSort` with the cost order.  The
derived `populationStats` display value `{ size, avgCost }` is omitted from
the record (it is a function of `population`); `best.cost.toFixed(2)` inside
the note string is embedded by `ratToFixed2`. -/

/-- Problem contract used by `geneticAlgorithm`. -/
structure GAProblem (S : Type) where
  cost : S → ℚ
  isSolution : S → Bool
  randomState : ℕ → S
  crossover : S → S → ℕ → S
  mutate : S → ℚ → ℕ → S
  clone : S → S

/-- Parameters of `geneticAlgorithm` (the `mixingNumber` is fixed to 2 in the
source, line 464). -/
structure GAParams where
  startingPopulationSize : ℕ
  mutationRate : ℚ
  cullRate : ℚ
  elitism : Bool
  maxGenerations : ℕ

/-- Step record yielded by `geneticAlgorithm`: `{ state, population, note,
evaluations }`.  As with `HCRecord` there is no terminal flag and no
structured status field. -/
structure GARecord (S : Type) where
  state : S
  population : List S
  note : String
  evaluations : ℕ

/-- Decimal rendering of a cost with two fraction digits, embedding
`Number.prototype.toFixed(2)` (up to binary floating-point artifacts,
which are out of scope of the rational embedding). -/
def ratToFixed2 (q : ℚ) : String :=
  let n : ℤ := ⌊q * 100 + 1/2⌋
  toString (n / 100) ++ "." ++
    (if n % 100 < 10 then "0" ++ toString (n % 100) else toString (n % 100))

/-- The cost order used by every `sort((a, b) => a.cost - b.cost)` call. -/
def gaCostLE {S : Type} (P : GAProblem S) : S → S → Prop :=
  fun a b => P.cost a ≤ P.cost b

instance {S : Type} (P : GAProblem S) : DecidableRel (gaCostLE P) :=
  fun _ _ => inferInstanceAs (Decidable (_ ≤ _))

instance {S : Type} (P : GAProblem S) : IsTotal S (gaCostLE P) :=
  ⟨fun _ _ => le_total _ _⟩

instance {S : Type} (P : GAProblem S) : IsTrans S (gaCostLE P) :=
  ⟨fun _ _ _ => le_trans⟩

/-- Tournament selection (`tournamentSelect(survivors, 3)`, lines 565-574):
three uniform draws, keeping the lowest cost (the first draw always replaces
the initial `null`). -/
def tournamentSelect {S : Type} [Inhabited S] (cost : S → ℚ) (pop : List S)
    (rng : ℕ → ℕ) (t : ℕ) : S :=
  let p1 := pop.getD (rng t % pop.length) default
  let p2 := pop.getD (rng (t + 1) % pop.length) default
  let p3 := pop.getD (rng (t + 2) % pop.length) default
  let b2 := if cost p2 < cost p1 then p2 else p1
  if cost p3 < cost b2 then p3 else b2

/-- The child-generation loop (lines 521-538): each slot selects two parents
by tournament, crosses them over and mutates the child; eight random draws
per child. -/
def gaChildren {S : Type} [Inhabited S] (P : GAProblem S) (survivors : List S)
    (rate : ℚ) (rng : ℕ → ℕ) : ℕ → ℕ → List S
  | 0, _ => []
  | k + 1, t =>
    let p1 := tournamentSelect P.cost survivors rng t
    let p2 := tournamentSelect P.cost survivors rng (t + 3)
    P.mutate (P.crossover p1 p2 (rng (t + 6))) rate (rng (t + 7)) ::
      gaChildren P survivors rate rng k (t + 8)

/-- One unsorted next generation (lines 498-538): cull when `cullRate > 0`
(`keepCount = Math.floor(length * (1 - cullRate))`), clone the best survivor
when `elitism`, then fill the remaining `startingPopulationSize` slots with
children. -/
def gaGeneration {S : Type} [Inhabited S] (P : GAProblem S) (p : GAParams)
    (rng : ℕ → ℕ) (population : List S) (t : ℕ) : List S :=
  let survivors :=
    if 0 < p.cullRate then
      population.take (⌊(population.length : ℚ) * (1 - p.cullRate)⌋).toNat
    else population
  let base := if p.elitism then [P.clone (survivors.getD 0 default)] else []
  base ++ gaChildren P survivors p.mutationRate rng
    (p.startingPopulationSize - base.length) t

/-- The generation loop of `geneticAlgorithm` (lines 489-551), from
generation number `gen` with `gensLeft` generations remaining; the population
argument is already sorted.  Each child counts one evaluation. -/
def gaRun {S : Type} [Inhabited S] (P : GAProblem S) (p : GAParams)
    (rng : ℕ → ℕ) : ℕ → ℕ → List S → ℕ → ℕ → List (GARecord S)
  | 0, _, _, _, _ => []
  | gensLeft + 1, gen, population, evals, t =>
    let best := population.getD 0 default
    if P.isSolution best then
      [⟨best, population, "Solution in Gen " ++ toString (gen - 1) ++ " ", evals⟩]
    else
      let childCount := p.startingPopulationSize - (if p.elitism then 1 else 0)
      let evals2 := evals + childCount
      let newPop := List.insertionSort (gaCostLE P) (gaGeneration P p rng population t)
      ⟨newPop.getD 0 default, newPop,
        "Gen " ++ toString gen ++ " Best: " ++
          ratToFixed2 (P.cost (newPop.getD 0 default)) ++ " ", evals2⟩ ::
        gaRun P p rng gensLeft (gen + 1) newPop evals2 (t + 8 * childCount)

/-- The full `geneticAlgorithm` record trace: random initial population of
`startingPopulationSize` individuals (one evaluation each), sorted, the
`Gen 0` yield, then the generation loop. -/
def geneticAlgorithm {S : Type} [Inhabited S] (P : GAProblem S) (p : GAParams)
    (rng : ℕ → ℕ) : List (GARecord S) :=
  let init := List.insertionSort (gaCostLE P)
    ((List.range p.startingPopulationSize).map (fun i => P.randomState (rng i)))
  ⟨init.getD 0 default, init,
    "Gen 0 Best: " ++ ratToFixed2 (P.cost (init.getD 0 default)) ++ " ",
    p.startingPopulationSize⟩ ::
    gaRun P p rng p.maxGenerations 1 init p.startingPopulationSize
      p.startingPopulationSize

/-- Adjacent-record relation for C5: some member of the next record's
population has cost at most every member of the previous record's population
— i.e. the minimum cost does not increase from one emitted generation to the
next. -/
def gaBestDominates {S : Type} (P : GAProblem S) (r rnext : GARecord S) : Prop :=
  ∃ x ∈ rnext.population, ∀ y ∈ r.population, P.cost x ≤ P.cost y

/-- Concrete `GAProblem` on `ℕ` (cost is the value itself, crossover returns
the first parent, mutation is the identity); used to instantiate the
genetic-algorithm theorems at concrete inputs. -/
def natGAProblem : GAProblem ℕ where
  cost := fun n => n
  isSolution := fun _ => false
  randomState := fun i => i
  crossover := fun a _ _ => a
  mutate := fun s _ _ => s
  clone := fun s => s

/-! ## Constructive / CSP algorithms (`constructive-algorithms.js`)

`bfs` (lines 135-186), `dfs` (lines 190-231) and `backtracking` (lines
235-287) all count `steps++` per popped node and return
`Stopped (Max Iterations)` once `steps >= maxIter`; `forwardChecking`
(lines 291-389) and `arcConsistency` (lines 392-451) never read
`params.maxIterations`.  Stacks/queues are embedded as lists with the head as
the next node to pop; pushing successors in reverse index order (so that
index 0 ends on top) therefore becomes prepending the successor list in
order.  Each embedded run returns the yielded records plus the generator's
return value (`none` only when the fuel runs out before the loop does). -/

/-- Record yielded by the constructive algorithms: `{ state, note,
evaluations }`, with `state: null` on exhaustion. -/
structure CRecord (S : Type) where
  state : Option S
  note : String
  evaluations : ℕ
deriving DecidableEq

/-- Problem contract used by the blind algorithms: the root (from
`problem.emptyState(params)` with a `null` dummy state), the solution test,
`getSuccessors`, and `isPartiallyValid` (used by backtracking only). -/
structure BlindProblem (S : Type) where
  root : S
  isSolution : S → Bool
  successors : S → List S
  partiallyValid : S → Bool

/-- The `bfs` loop (lines 155-186): pop the queue front, count the step,
yield, test the goal, test the iteration cap, then append all successors. -/
def bfsRun {S : Type} (P : BlindProblem S) (maxIter : ℕ) :
    ℕ → List S → ℕ → ℕ → List (CRecord S) × Option String
  | 0, _, _, _ => ([], none)
  | _ + 1, [], _, evals =>
    ([⟨none, "No Solution Found (Exhausted)", evals⟩],
      some "No Solution Found (Exhausted)")
  | fuel + 1, cur :: rest, steps, evals =>
    let rec0 : CRecord S := ⟨some cur, "BFS Queue: " ++ toString rest.length, evals⟩
    if P.isSolution cur then
      ([rec0, ⟨some cur, "Solution Found!", evals⟩], some "Solution Found!")
    else if maxIter ≤ steps + 1 then
      ([rec0, ⟨some cur, "Stopped (Max Iterations " ++ toString maxIter ++ ")", evals⟩],
        some "Stopped (Max Iterations)")
    else
      let succ := P.successors cur
      let res := bfsRun P maxIter fuel (rest ++ succ) (steps + 1) (evals + succ.length)
      (rec0 :: res.1, res.2)

/-- The `dfs` loop (lines 204-231): as `bfs` but LIFO (successors are pushed
so that index 0 is popped first). -/
def dfsRun {S : Type} (P : BlindProblem S) (maxIter : ℕ) :
    ℕ → List S → ℕ → ℕ → List (CRecord S) × Option String
  | 0, _, _, _ => ([], none)
  | _ + 1, [], _, evals =>
    ([⟨none, "No Solution Found", evals⟩], some "No Solution Found (Exhausted)")
  | fuel + 1, cur :: rest, steps, evals =>
    let rec0 : CRecord S := ⟨some cur, "DFS Stack: " ++ toString rest.length, evals⟩
    if P.isSolution cur then
      ([rec0, ⟨some cur, "Solution Found!", evals⟩], some "Solution Found!")
    else if maxIter ≤ steps + 1 then
      ([rec0, ⟨some cur, "Stopped (Max Iterations " ++ toString maxIter ++ ")", evals⟩],
        some "Stopped (Max Iterations)")
    else
      let succ := P.successors cur
      let res := dfsRun P maxIter fuel (succ ++ rest) (steps + 1) (evals + succ.length)
      (rec0 :: res.1, res.2)

/-- The `backtracking` loop (lines 249-287): as `dfs`, expanding a popped
node only when `isPartiallyValid` holds. -/
def backtrackingRun {S : Type} (P : BlindProblem S) (maxIter : ℕ) :
    ℕ → List S → ℕ → ℕ → List (CRecord S) × Option String
  | 0, _, _, _ => ([], none)
  | _ + 1, [], _, evals =>
    ([⟨none, "No Solution Found", evals⟩], some "No Solution Found (Exhausted)")
  | fuel + 1, cur :: rest, steps, evals =>
    let rec0 : CRecord S := ⟨some cur, "Backtrack Stack: " ++ toString rest.length, evals⟩
    if P.isSolution cur then
      ([rec0, ⟨some cur, "Solution Found!", evals⟩], some "Solution Found!")
    else if maxIter ≤ steps + 1 then
      ([rec0, ⟨some cur, "Stopped (Max Iterations " ++ toString maxIter ++ ")", evals⟩],
        some "Stopped (Max Iterations)")
    else if P.partiallyValid cur then
      let succ := P.successors cur
      let res := backtrackingRun P maxIter fuel (succ ++ rest) (steps + 1)
        (evals + succ.length)
      (rec0 :: res.1, res.2)
    else
      let res := backtrackingRun P maxIter fuel rest (steps + 1) evals
      (rec0 :: res.1, res.2)

/-- Problem contract used by `forwardChecking`: root with initialized
domains, solution test, `selectUnassignedVariable`, `getDomainValues`,
`propagate` (returning `{domains, success}`), `applyMove`, and the
`JSON.stringify(variable)` rendering used in the wipeout note. -/
structure CSPProblem (S V A D : Type) where
  root : S
  isSolution : S → Bool
  selectVar : S → Option V
  domainValues : S → V → List A
  propagate : S → V → A → D × Bool
  applyMove : S → V → A → D → S
  showVar : V → String

/-- The per-value loop of `forwardChecking` (lines 356-381), iterating the
domain values from the last index down to 0 so that index 0 ends on top of
the stack: on success push the moved state and count an evaluation; on
wipeout yield the inconsistent state once (displaying `evaluations + 1`
without persisting the increment, as the source does). -/
def fcTryValues {S V A D : Type} (P : CSPProblem S V A D) (cur : S) (v : V)
    (stack : List S) (evals : ℕ) : List A → List S × List (CRecord S) × ℕ
  | [] => (stack, [], evals)
  | a :: rest =>
    -- the source's loop reaches index 0 (value `a`) last
    let acc := fcTryValues P cur v stack evals rest
    let res := P.propagate cur v a
    if res.2 then
      (P.applyMove cur v a res.1 :: acc.1, acc.2.1, acc.2.2 + 1)
    else
      (acc.1,
        acc.2.1 ++ [⟨some (P.applyMove cur v a res.1),
          "Pruned (Wipeout on " ++ P.showVar v ++ ")", acc.2.2 + 1⟩],
        acc.2.2)

/-- The `forwardChecking` loop (lines 324-389).  Note the absence of any
`maxIterations` test: the function never reads that parameter. -/
def fcRun {S V A D : Type} (P : CSPProblem S V A D) :
    ℕ → List S → ℕ → List (CRecord S) × Option String
  | 0, _, _ => ([], none)
  | _ + 1, [], evals =>
    ([⟨none, "No Solution Found (Exhausted)", evals⟩],
      some "No Solution Found (Exhausted)")
  | fuel + 1, cur :: rest, evals =>
    let rec0 : CRecord S := ⟨some cur, "FC Stack: " ++ toString rest.length, evals⟩
    if P.isSolution cur then
      ([rec0, ⟨some cur, "Solution Found!", evals⟩], some "Solution Found!")
    else
      match P.selectVar cur with
      | some v =>
        let tri := fcTryValues P cur v rest evals (P.domainValues cur v)
        let res := fcRun P fuel tri.1 tri.2.2
        (rec0 :: tri.2.1 ++ res.1, res.2)
      | none =>
        let res := fcRun P fuel rest evals
        (rec0 :: res.1, res.2)

/-- The per-value loop of `arcConsistency` (lines 424-445): the same shape as
`fcTryValues` with the AC-3 note strings — on success push the moved state and
count an evaluation; on failure yield the inconsistent state once, displaying
`evaluations + 1` without persisting the increment, as the source does. -/
def acTryValues {S V A D : Type} (P : CSPProblem S V A D) (cur : S) (v : V)
    (stack : List S) (evals : ℕ) : List A → List S × List (CRecord S) × ℕ
  | [] => (stack, [], evals)
  | a :: rest =>
    -- the source's loop reaches index 0 (value `a`) last
    let acc := acTryValues P cur v stack evals rest
    let res := P.propagate cur v a
    if res.2 then
      (P.applyMove cur v a res.1 :: acc.1, acc.2.1, acc.2.2 + 1)
    else
      (acc.1,
        acc.2.1 ++ [⟨some (P.applyMove cur v a res.1), "AC-3 Inconsistency",
          acc.2.2 + 1⟩],
        acc.2.2)

/-- The `arcConsistency` loop (lines 405-449): structurally the
`forwardChecking` loop with `problem.propagateAC3` in the propagate slot and
the AC-3 note strings.  Note the absence of any `maxIterations` test: like
`forwardChecking`, the function never reads that parameter. -/
def acRun {S V A D : Type} (P : CSPProblem S V A D) :
    ℕ → List S → ℕ → List (CRecord S) × Option String
  | 0, _, _ => ([], none)
  | _ + 1, [], evals =>
    ([⟨none, "No Solution Found (Exhausted)", evals⟩],
      some "No Solution Found (Exhausted)")
  | fuel + 1, cur :: rest, evals =>
    let rec0 : CRecord S := ⟨some cur, "AC-3 Stack: " ++ toString rest.length, evals⟩
    if P.isSolution cur then
      ([rec0, ⟨some cur, "Solution Found!", evals⟩], some "Solution Found!")
    else
      match P.selectVar cur with
      | some v =>
        let tri := acTryValues P cur v rest evals (P.domainValues cur v)
        let res := acRun P fuel tri.1 tri.2.2
        (rec0 :: tri.2.1 ++ res.1, res.2)
      | none =>
        let res := acRun P fuel rest evals
        (rec0 :: res.1, res.2)

/-! ### N-Queens constraint propagation (`problems/n-queens.js`)

Domains are per-row lists of admissible columns; rows are assigned in order
(`selectUnassignedVariable` returns `queens.length`). -/

/-- Absolute difference on naturals, embedding `Math.abs(a - b)`. -/
def absDiff (a b : ℕ) : ℕ := max a b - min a b

/-- The domain filter shared by forward checking and the initial AC-3 prune:
drop the assigned column and the two diagonal hits at distance `dist`
(lines 278-282 and 313-317 of `n-queens.js`). -/
def nqFCFilter (col dist : ℕ) (d : List ℕ) : List ℕ :=
  d.filter (fun c => decide (c ≠ col) && decide (absDiff c col ≠ dist))

/-- The forward-checking prune loop (`propagate`, lines 276-284): filter
every row after the assigned one, with `dist = r - row`. -/
def nqFCPrune (col row : ℕ) : ℕ → List (List ℕ) → List (List ℕ)
  | _, [] => []
  | r, d :: rest =>
    (if row < r then nqFCFilter col (r - row) d else d) :: nqFCPrune col row (r + 1) rest

/-- `NQueensProblem.propagate` (lines 264-286): set the assigned row's domain
to the singleton, prune all later rows, and report failure when a pruned row
wiped out. -/
def nqPropagate (n row col : ℕ) (domains : List (List ℕ)) : List (List ℕ) × Bool :=
  let nd := nqFCPrune col row 0 (domains.set row [col])
  (nd, ((List.range n).filter (fun r => decide (row < r))).all
    (fun r => !(nd.getD r []).isEmpty))

/-- The initial prune phase of `_runAC3` (lines 305-326): filter every row
other than the assigned one with `dist = |r - row|`; return immediately on a
wipeout (leaving the remaining rows unfiltered, like the source's early
`return false`), and enqueue arcs `(k, r)` for every shrunk row. -/
def nqAC3Init (n col row : ℕ) : ℕ → List (List ℕ) →
    List (List ℕ) × List (ℕ × ℕ) × Bool
  | _, [] => ([], [], true)
  | r, d :: rest =>
    if r = row then
      let res := nqAC3Init n col row (r + 1) rest
      (d :: res.1, res.2.1, res.2.2)
    else
      let d2 := nqFCFilter col (absDiff r row) d
      if d2.isEmpty then (d2 :: rest, [], false)
      else
        let arcs := if d2.length < d.length then
          (((List.range n).filter (fun k => decide (k ≠ r) && decide (k ≠ row))).map
            (fun k => (k, r)))
          else []
        let res := nqAC3Init n col row (r + 1) rest
        (d2 :: res.1, arcs ++ res.2.1, res.2.2)

/-- `NQueensProblem._revise` (lines 341-358): drop from `domains[xi]` every
value with no supporting value in `domains[xj]`; report whether the domain
shrank. -/
def nqRevise (domains : List (List ℕ)) (xi xj : ℕ) : List (List ℕ) × Bool :=
  let di := domains.getD xi []
  let dj := domains.getD xj []
  let ndi := di.filter (fun x =>
    dj.any (fun y => decide (x ≠ y) && decide (absDiff xi xj ≠ absDiff x y)))
  if ndi.length < di.length then (domains.set xi ndi, true) else (domains, false)

/-- The revision queue loop of `_runAC3` (lines 329-337), FIFO, re-enqueuing
arcs `(k, xi)` after every shrink.  The loop always terminates in the source;
the fuel is an artificial bound, and running out returns the domains as they
stand. -/
def nqAC3Queue (n : ℕ) : ℕ → List (ℕ × ℕ) → List (List ℕ) → List (List ℕ) × Bool
  | 0, _, domains => (domains, true)
  | _ + 1, [], domains => (domains, true)
  | fuel + 1, (xi, xj) :: rest, domains =>
    let res := nqRevise domains xi xj
    if res.2 then
      if (res.1.getD xi []).isEmpty then (res.1, false)
      else
        nqAC3Queue n fuel
          (rest ++ ((List.range n).filter
            (fun k => decide (k ≠ xi) && decide (k ≠ xj))).map (fun k => (k, xi)))
          res.1
    else nqAC3Queue n fuel rest res.1

/-- `NQueensProblem.propagateAC3` (lines 289-299): assign the singleton, run
the initial prune, then process the revision queue. -/
def nqPropagateAC3 (fuel n : ℕ) (domains : List (List ℕ)) (row col : ℕ) :
    List (List ℕ) × Bool :=
  let d0 := domains.set row [col]
  let res := nqAC3Init n col row 0 d0
  if res.2.2 then nqAC3Queue n fuel res.2.1 res.1
  else (res.1, false)

/-- Final domains of a forward-checking assignment path: apply `propagate`
for each `(row, col)` decision in order. -/
def nqFCPath (n : ℕ) : List (ℕ × ℕ) → List (List ℕ) → List (List ℕ)
  | [], d => d
  | (row, col) :: rest, d => nqFCPath n rest (nqPropagate n row col d).1

/-- Final domains of an AC-3 assignment path, together with whether every
step reported success. -/
def nqAC3Path (fuel n : ℕ) : List (ℕ × ℕ) → List (List ℕ) → List (List ℕ) × Bool
  | [], d => (d, true)
  | (row, col) :: rest, d =>
    let res := nqPropagateAC3 fuel n d row col
    let res2 := nqAC3Path fuel n rest res.1
    (res2.1, res.2 && res2.2)

/-- Constructive-search state for N-Queens: the assigned columns (row order)
and the per-row domains. -/
structure NQState where
  queens : List ℕ
  domains : List (List ℕ)
deriving DecidableEq

/-- The N-Queens CSP instance wired the way `forwardChecking` consumes it:
in-order variable selection (`selectUnassignedVariable` returns
`queens.length`), `getDomainValues` reads the row's domain, `applyMove`
appends the column, `propagate` is the forward-checking prune.  `isSolution`
is `!isPartial && cost === 0` specialized to complete states. -/
def nqCSP (n : ℕ) : CSPProblem NQState ℕ ℕ (List (List ℕ)) where
  root := ⟨[], (List.range n).map (fun _ => List.range n)⟩
  isSolution := fun s => decide (s.queens.length = n) &&
    ((List.range n).all (fun i => (List.range n).all (fun j =>
      if i < j then
        decide (s.queens.getD i 0 ≠ s.queens.getD j 0) &&
        decide (absDiff i j ≠ absDiff (s.queens.getD i 0) (s.queens.getD j 0))
      else true)))
  selectVar := fun s => if s.queens.length < n then some s.queens.length else none
  domainValues := fun s v => s.domains.getD v []
  propagate := fun s v a => nqPropagate n v a s.domains
  applyMove := fun s v a d => ⟨s.queens ++ [a], d⟩
  showVar := fun v => toString v

/-- The N-Queens CSP instance wired the way `arcConsistency` consumes it: as
`nqCSP` but with `propagateAC3` (lines 289-299 of `n-queens.js`) in the
propagate slot. -/
def nqCSPAC3 (fuel n : ℕ) : CSPProblem NQState ℕ ℕ (List (List ℕ)) :=
  { nqCSP n with propagate := fun s v a => nqPropagateAC3 fuel n s.domains v a }

/-- Blind chain problem (`0 → 1 → 2 → ⋯`, never a solution): a minimal
instance on which the blind searches run forever without the iteration cap. -/
def chainBlindProblem : BlindProblem ℕ where
  root := 0
  isSolution := fun _ => false
  successors := fun n => [n + 1]
  partiallyValid := fun _ => true

/-! ## Local beam search (`algorithms.js`, `localBeamSearch`, lines 303-452)

The restart loop is fuel-indexed; the generation loop is bounded by
`maxGenerations`.  The stochastic variant's `Math.exp(-beta * (cost - min))`
weights are embedded through an abstract `expw : ℚ → ℚ` standing for
`Math.exp` (with `beta = 1`), and each slot's `Math.random() * totalWeight`
draw is `rq t * totalWeight` for a unit-interval oracle `rq`.  The
`metadata` status tags and the derived `populationStats` display value are
omitted from the records (pure visualization data). -/

/-- Problem contract used by `localBeamSearch`. -/
structure LBSProblem (S : Type) where
  cost : S → ℚ
  isSolution : S → Bool
  neighbors : S → List S
  randomState : ℕ → S

/-- Parameters of `localBeamSearch`; `stochastic` is
`variant === 'stochastic'`. -/
structure LBSParams where
  beamWidth : ℕ
  stochastic : Bool
  maxGenerations : ℕ
  maxSideways : ℕ
  maxRestarts : ℕ

/-- Step record yielded by `localBeamSearch`:
`{ state, population, note, restartCount, evaluations }`. -/
structure LBSRecord (S : Type) where
  state : S
  population : List S
  note : String
  restartCount : ℕ
  evaluations : ℕ
deriving DecidableEq

/-- The weighted-selection scan (lines 374-382): subtract weights from the
draw until it is non-positive; `none` when the scan falls through (the
source then falls back to the last successor). -/
def lbsScan {S : Type} : List ℚ → List S → ℚ → Option S
  | _, [], _ => none
  | [], _, _ => none
  | w :: ws, x :: xs, r => if r - w ≤ 0 then some x else lbsScan ws xs (r - w)

/-- The stochastic selection loop (lines 373-386): `beamWidth` independent
draws with replacement, with the last successor as fallback. -/
def lbsSelectStochastic {S : Type} [Inhabited S] (pool : List S)
    (weights : List ℚ) (total : ℚ) (rq : ℕ → ℚ) : ℕ → ℕ → List S
  | 0, _ => []
  | k + 1, t =>
    (lbsScan weights pool (rq t * total)).getD (pool.getLastD default) ::
      lbsSelectStochastic pool weights total rq k (t + 1)

/-- Selection of the next population from the pooled neighbors (lines
362-396): stochastic softmax-weighted sampling of `beamWidth` states, or the
deterministic `beamWidth`-prefix of the pool sorted by cost. -/
def lbsNextPopulation {S : Type} [Inhabited S] (P : LBSProblem S) (p : LBSParams)
    (expw : ℚ → ℚ) (rq : ℕ → ℚ) (pool : List S) (t : ℕ) : List S :=
  if p.stochastic then
    let minCost :=
      match pool.map P.cost with
      | [] => 0
      | c :: cs => cs.foldl min c
    let weights := pool.map (fun s => expw (-(P.cost s - minCost)))
    let total := weights.foldl (· + ·) 0
    lbsSelectStochastic pool weights total rq p.beamWidth t
  else
    (List.insertionSort (fun a b => P.cost a ≤ P.cost b) pool).take p.beamWidth

/-- Tail of one generation of `localBeamSearch` after the next population has
been selected and sorted (lines 397-438): yield the generation record, return
on a solution, exit the loop when the sideways budget is exhausted, otherwise
continue with the already-computed remainder `rest` of the run. -/
def lbsIterFinish {S : Type} (P : LBSProblem S) (p : LBSParams)
    (restarts evals2 t2 sideways2 : ℕ) (sortedPop : List S) (newBest : S)
    (note : String) (rest : List (LBSRecord S) × Option (Bool × S × List S × ℕ × ℕ)) :
    List (LBSRecord S) × Option (Bool × S × List S × ℕ × ℕ) :=
  if P.isSolution newBest then
    ([⟨newBest, sortedPop, note, restarts, evals2⟩,
      ⟨newBest, sortedPop, "Solution Found!", restarts, evals2⟩], none)
  else if p.maxSideways ≤ sideways2 then
    ([⟨newBest, sortedPop, note, restarts, evals2⟩],
      some (true, newBest, sortedPop, evals2, t2))
  else
    (⟨newBest, sortedPop, note, restarts, evals2⟩ :: rest.1, rest.2)

/-- The generation loop of `localBeamSearch` (lines 337-439).  Returns the
yielded records plus `none` when the generator returned (solution found), or
`some (stuck, best, population, evaluations, t)` when the loop exited
(stuck/dead end/sideways limit, or `maxGenerations` exhausted). -/
def lbsGens {S : Type} [Inhabited S] (P : LBSProblem S) (p : LBSParams)
    (expw : ℚ → ℚ) (rq : ℕ → ℚ) :
    ℕ → ℕ → List S → S → S → ℕ → ℕ → ℕ → ℕ →
    List (LBSRecord S) × Option (Bool × S × List S × ℕ × ℕ)
  | 0, _, population, best, _, _, _, evals, t =>
    ([], some (false, best, population, evals, t))
  | gensLeft + 1, gen, population, best, bestSoFar, sideways, restarts, evals, t =>
    if P.isSolution best then
      ([⟨best, population, "Solution Found!", restarts, evals⟩], none)
    else
      let pool := population.foldr (fun s acc => P.neighbors s ++ acc) []
      let evals2 := evals + pool.length
      if pool.isEmpty then ([], some (true, best, population, evals2, t))
      else
        let nextPopulation := lbsNextPopulation P p expw rq pool t
        let t2 := if p.stochastic then t + p.beamWidth else t
        let sortedPop := List.insertionSort (fun a b => P.cost a ≤ P.cost b) nextPopulation
        let newBest := sortedPop.getD 0 default
        let sideways2 := if P.cost newBest < P.cost bestSoFar then 0 else sideways + 1
        let bestSoFar2 := if P.cost newBest < P.cost bestSoFar then newBest else bestSoFar
        let note :=
          if P.cost newBest < P.cost bestSoFar then
            "Gen " ++ toString gen ++ " Improved: " ++ ratToFixed2 (P.cost newBest) ++ " "
          else
            "Gen " ++ toString gen ++ " Sideways(" ++ toString (sideways + 1) ++ " / " ++
              toString p.maxSideways ++ ")"
        lbsIterFinish P p restarts evals2 t2 sideways2 sortedPop newBest note
          (lbsGens P p expw rq gensLeft (gen + 1) sortedPop newBest bestSoFar2
            sideways2 restarts evals2 t2)

/-- The restart loop of `localBeamSearch` (lines 308-451): initialize
`beamWidth` random states, sort, yield the init record, run the generation
loop, then restart or report `Stuck (Max Restarts Reached)`. -/
def lbsOuter {S : Type} [Inhabited S] (P : LBSProblem S) (p : LBSParams)
    (expw : ℚ → ℚ) (rng : ℕ → ℕ) (rq : ℕ → ℚ) :
    ℕ → ℕ → ℕ → ℕ → List (LBSRecord S)
  | 0, _, _, _ => []
  | fuel + 1, restarts, evals, t =>
    let population := List.insertionSort (fun a b => P.cost a ≤ P.cost b)
      ((List.range p.beamWidth).map (fun i => P.randomState (rng (t + i))))
    let evals1 := evals + p.beamWidth
    let best := population.getD 0 default
    let initRec : LBSRecord S := ⟨best, population,
      (if 0 < restarts then "Beam Init(Restart #" ++ toString restarts ++ ")"
        else "Beam Init(k = " ++ toString p.beamWidth ++ ")"), restarts, evals1⟩
    let res := lbsGens P p expw rq p.maxGenerations 1 population best best 0 restarts
      evals1 (t + p.beamWidth)
    initRec :: res.1 ++
      (match res.2 with
       | none => []
       | some (stuck, bestF, popF, evalsF, tF) =>
         if stuck ∨ 0 < evalsF then
           if restarts < p.maxRestarts then
             ⟨bestF, popF, "Stuck/Limit - Restarting...", restarts, evalsF⟩ ::
               lbsOuter P p expw rng rq fuel (restarts + 1) evalsF tF
           else
             [⟨bestF, popF, "Stuck (Max Restarts Reached)", restarts, evalsF⟩]
         else lbsOuter P p expw rng rq fuel restarts evalsF tF)

/-- The full `localBeamSearch` record trace. -/
def localBeamSearch {S : Type} [Inhabited S] (P : LBSProblem S) (p : LBSParams)
    (expw : ℚ → ℚ) (rng : ℕ → ℕ) (rq : ℕ → ℚ) (fuel : ℕ) : List (LBSRecord S) :=
  lbsOuter P p expw rng rq fuel 0 0 0

/-- Concrete `LBSProblem` on `ℕ` whose state `0` has no neighbors and whose
state `1` has the single neighbor `2`: with a beam of `{0, 1}` the successor
pool has just one candidate. -/
def lbsDemoProblem : LBSProblem ℕ where
  cost := fun n => n
  isSolution := fun _ => false
  neighbors := fun n => if n = 1 then [2] else []
  randomState := fun i => i

/-! ## Theorems -/

theorem strStarts_append (pre a t : String) (h : pre.data.length ≤ a.data.length) :
    strStarts pre (a ++ t) ↔ strStarts pre a := by
  unfold strStarts
  rw [String.data_append]
  constructor
  · intro hc
    exact List.prefix_of_prefix_length_le hc (List.prefix_append _ _) (by simpa using h)
  · intro hp
    exact hp.trans (List.prefix_append _ _)

theorem saIter_eq_some {S : Type} (P : SAProblem S) (c : ℚ) (rng : ℕ → ℕ)
    (acc : ℕ → Bool) (st st' : SAState S)
    (h : saIter P c rng acc st = some st') :
    st'.temp = st.temp * c ∧ (1/10000 : ℚ) ≤ st.temp ∧ ¬ (st.temp * c < 1/100) := by
  unfold saIter at h
  by_cases h1 : P.isSolution st.current
  · simp [h1] at h
  · simp [h1] at h
    obtain ⟨ha, hb, hc⟩ := h
    refine ⟨?_, by simpa using ha, not_lt.mpr (by simpa using hb)⟩
    rw [← hc]

/-- C7: in every `simulatedAnnealing` run with `initialTemperature > 0` and
`coolingRate ∈ (0,1)`, each loop iteration (one emitted step) multiplies the
temperature by `coolingRate` exactly once, after the accept/reject decision:
`T_{n+1} = T_n × coolingRate`, so the temperature sequence across emitted
steps is strictly decreasing. -/
theorem simulatedAnnealing_temperature_strictly_decreasing {S : Type}
    (P : SAProblem S) (c : ℚ) (rng : ℕ → ℕ) (acc : ℕ → Bool) (st0 : SAState S)
    (hc0 : 0 < c) (hc1 : c < 1) (n : ℕ) (st st' : SAState S)
    (hn : saStates P c rng acc st0 n = some st)
    (hn1 : saStates P c rng acc st0 (n + 1) = some st') :
    st'.temp = st.temp * c ∧ st'.temp < st.temp := by
  have hiter : saIter P c rng acc st = some st' := by
    rw [saStates, hn] at hn1
    simpa using hn1
  obtain ⟨he, hge, -⟩ := saIter_eq_some P c rng acc st st' hiter
  refine ⟨he, ?_⟩
  have hpos : 0 < st.temp := lt_of_lt_of_le (by norm_num) hge
  calc st'.temp = st.temp * c := he
    _ < st.temp * 1 := by exact mul_lt_mul_of_pos_left hc1 hpos
    _ = st.temp := mul_one _

theorem simulatedAnnealing_temperature_witness :
    (0 : ℚ) < 1/2 ∧ (1/2 : ℚ) < 1 ∧
    saStates unitSAProblem (1/2) (fun _ => 0) (fun _ => false) ⟨(), 1, 0, 0⟩ 0 =
      some ⟨(), 1, 0, 0⟩ ∧
    saStates unitSAProblem (1/2) (fun _ => 0) (fun _ => false) ⟨(), 1, 0, 0⟩ 1 =
      some ⟨(), 1/2, 1, 1⟩ ∧
    ((⟨(), 1/2, 1, 1⟩ : SAState Unit).temp = (⟨(), 1, 0, 0⟩ : SAState Unit).temp * (1/2) ∧
      (⟨(), 1/2, 1, 1⟩ : SAState Unit).temp < (⟨(), 1, 0, 0⟩ : SAState Unit).temp) :=
  ⟨by norm_num, by norm_num, rfl, by simp [saStates, saIter, unitSAProblem]; norm_num,
    simulatedAnnealing_temperature_strictly_decreasing unitSAProblem (1/2)
      (fun _ => 0) (fun _ => false) ⟨(), 1, 0, 0⟩ (by norm_num) (by norm_num) 0
      ⟨(), 1, 0, 0⟩ ⟨(), 1/2, 1, 1⟩ rfl (by simp [saStates, saIter, unitSAProblem]; norm_num)⟩

theorem saRun_stops {S : Type} (P : SAProblem S) (c : ℚ) (rng : ℕ → ℕ)
    (acc : ℕ → Bool) :
    ∀ fuel (st : SAState S), st.temp * c ^ (fuel + 1) < 1/100 →
      saRunTerminated P c rng acc (fuel + 1) st = true := by
  intro fuel
  induction fuel with
  | zero =>
    intro st hb
    rw [saRunTerminated]
    cases h : saIter P c rng acc st with
    | none => rfl
    | some st' =>
      obtain ⟨-, -, h3⟩ := saIter_eq_some P c rng acc st st' h
      exact absurd (by simpa [pow_one] using hb) h3
  | succ m ih =>
    intro st hb
    rw [saRunTerminated]
    cases h : saIter P c rng acc st with
    | none => rfl
    | some st' =>
      obtain ⟨he, -, -⟩ := saIter_eq_some P c rng acc st st' h
      refine ih st' ?_
      rw [he]
      calc st.temp * c * c ^ (m + 1) = st.temp * c ^ (m + 2) := by ring
        _ < 1/100 := hb

/-- C10: for every `initialTemp > 0` and `coolingRate ∈ (0,1)`,
`simulatedAnnealing` terminates after finitely many steps: there is an `n`
with `T0 · c^(n+1) < 0.01`, and the run returns within `n + 1` loop
iterations, i.e. no later than the first step at which the cooled temperature
falls below `0.01`. -/
theorem simulatedAnnealing_terminates {S : Type} (P : SAProblem S) (c : ℚ)
    (rng : ℕ → ℕ) (acc : ℕ → Bool) (s0 : S) (T0 : ℚ)
    (hT : 0 < T0) (hc0 : 0 < c) (hc1 : c < 1) :
    ∃ n : ℕ, T0 * c ^ (n + 1) < 1/100 ∧
      saRunTerminated P c rng acc (n + 1) ⟨s0, T0, 0, 0⟩ = true := by
  obtain ⟨m, hm⟩ := exists_pow_lt_of_lt_one (x := (1/100) / T0) (y := c)
    (by positivity) hc1
  have hlt : T0 * c ^ (m + 1) < 1/100 := by
    have h1 : c ^ (m + 1) ≤ c ^ m := pow_le_pow_of_le_one hc0.le hc1.le (Nat.le_succ m)
    have h2 : T0 * c ^ m < 1/100 := by
      have := (lt_div_iff₀ hT).mp hm
      linarith
    have h3 : T0 * c ^ (m + 1) ≤ T0 * c ^ m := by
      exact mul_le_mul_of_nonneg_left h1 hT.le
    linarith
  exact ⟨m, hlt, saRun_stops P c rng acc m ⟨s0, T0, 0, 0⟩ hlt⟩

theorem simulatedAnnealing_terminates_witness :
    (0 : ℚ) < 1 ∧ (0 : ℚ) < 1/2 ∧ (1/2 : ℚ) < 1 ∧
    ∃ n : ℕ, (1 : ℚ) * (1/2) ^ (n + 1) < 1/100 ∧
      saRunTerminated unitSAProblem (1/2) (fun _ => 0) (fun _ => false) (n + 1)
        ⟨(), 1, 0, 0⟩ = true :=
  ⟨by norm_num, by norm_num, by norm_num,
    simulatedAnnealing_terminates unitSAProblem (1/2) (fun _ => 0) (fun _ => false)
      () 1 (by norm_num) (by norm_num) (by norm_num)⟩

/-- C8 counterexample: the claim asserts the acceptance probability
`exp(Δ/temperature)` is strictly less than `1` for every `Δ ≤ 0`; at the
concrete non-improving case `Δ = 0`, `temperature = 1` the probability equals
`1`, so it is not `< 1`. -/
theorem saAcceptProbability_not_lt_one_at_zero :
    saAcceptProbability 0 1 = 1 ∧ ¬ (saAcceptProbability 0 1 < 1) := by
  have h : saAcceptProbability 0 1 = 1 := by
    unfold saAcceptProbability
    norm_num
  exact ⟨h, by rw [h]; exact lt_irrefl 1⟩

/-- C8 (amended): a non-improving neighbor (`Δ ≤ 0`) is accepted with
probability `exp(Δ/temperature)`; for `temperature > 0` this probability is at
most `1`, strictly less than `1` exactly when `Δ < 0`, and equal to `1` when
`Δ = 0`. -/
theorem saAcceptProbability_bounds (deltaE temp : ℝ) (ht : 0 < temp) :
    (deltaE ≤ 0 → saAcceptProbability deltaE temp ≤ 1) ∧
    (deltaE < 0 → saAcceptProbability deltaE temp < 1) ∧
    (deltaE = 0 → saAcceptProbability deltaE temp = 1) := by
  unfold saAcceptProbability
  refine ⟨?_, ?_, ?_⟩
  · intro hd
    rw [show (1 : ℝ) = Real.exp 0 by rw [Real.exp_zero]]
    exact Real.exp_le_exp.mpr (div_nonpos_iff.mpr (Or.inr ⟨hd, ht.le⟩))
  · intro hd
    exact Real.exp_lt_one_iff.mpr (div_neg_of_neg_of_pos hd ht)
  · intro hd
    rw [hd, zero_div, Real.exp_zero]

theorem saAcceptProbability_bounds_witness :
    (0 : ℝ) < 1 ∧
    (((-1 : ℝ) ≤ 0 → saAcceptProbability (-1) 1 ≤ 1) ∧
      ((-1 : ℝ) < 0 → saAcceptProbability (-1) 1 < 1) ∧
      ((-1 : ℝ) = 0 → saAcceptProbability (-1) 1 = 1)) :=
  ⟨by norm_num, saAcceptProbability_bounds (-1) 1 (by norm_num)⟩

theorem strStarts_self_append (pre t : String) : strStarts pre (pre ++ t) := by
  unfold strStarts
  rw [String.data_append]
  exact List.prefix_append _ _

theorem strStarts_mono_left (pre a t : String) (h : strStarts pre a) :
    strStarts pre (a ++ t) := by
  unfold strStarts at h ⊢
  rw [String.data_append]
  exact h.trans (List.prefix_append _ _)

theorem strStarts_append_decide_true (pre a t : String)
    (hl : pre.data.length ≤ a.data.length) (h : strStarts pre a) :
    decide (strStarts pre (a ++ t)) = true :=
  decide_eq_true ((strStarts_append pre a t hl).mpr h)

theorem strStarts_append_decide_false (pre a t : String)
    (hl : pre.data.length ≤ a.data.length) (h : ¬ strStarts pre a) :
    decide (strStarts pre (a ++ t)) = false :=
  decide_eq_false (fun hc => h ((strStarts_append pre a t hl).mp hc))

theorem decide_strStarts_stop_false (pre : String) (hl : pre.data.length ≤ 24)
    (h : ¬ strStarts pre "Stopped (Max Iterations ") (t : String) :
    decide (strStarts pre ("Stopped (Max Iterations " ++ t ++ ")")) = false := by
  have h24 : ("Stopped (Max Iterations ").data.length = 24 := by decide
  refine strStarts_append_decide_false pre ("Stopped (Max Iterations " ++ t) ")"
    ?_ ?_
  · rw [String.data_append, List.length_append]
    omega
  · intro hc
    exact h ((strStarts_append pre _ t (by omega)).mp hc)

theorem restart_note_ne_improved (s : String) : ("Restart #" ++ s) ≠ "Improved" := by
  intro h
  have hl := congrArg (fun x => x.data.length) h
  simp [String.data_append] at hl

theorem not_strStarts_sideways_restart (s : String) :
    ¬ strStarts "Sideways" ("Restart #" ++ s) := by
  rw [strStarts_append _ _ _ (by decide)]
  decide

theorem not_tol_plain_sideways_note (t : String) :
    ¬ strStarts "Sideways (≈)" ("Sideways" ++ (" move " ++ t)) := by
  have hass : ("Sideways" ++ (" move " ++ t)) = ("Sideways" ++ " move ") ++ t := by
    rw [String.append_assoc]
  rw [hass, strStarts_append _ _ _ (by decide)]
  decide

theorem hcNotAccepted {S : Type} {s : S} {a b : ℕ} {note : String}
    (h1 : note ≠ "Improved") (h2 : ¬ strStarts "Sideways" note) :
    ¬ hcAccepted (⟨s, note, a, b⟩ : HCRecord S) := by
  intro h
  unfold hcAccepted at h
  rcases h with hi | hs
  · exact h1 hi
  · exact h2 hs

theorem hcClimb_chain {S : Type} (P : HCProblem S) (p : HCParams) (rng : ℕ → ℕ) :
    ∀ fuel current sideways restarts evals t,
      (∀ r ∈ hcClimb P p rng fuel current sideways restarts evals t, hcNoteShape r.note) ∧
      List.Chain' (hcMono P.cost) (hcClimb P p rng fuel current sideways restarts evals t) ∧
      (∀ r, (hcClimb P p rng fuel current sideways restarts evals t).head? = some r →
        hcAccepted r → ¬ hcToleranceAccepted r → P.cost r.state ≤ P.cost current) := by
  intro fuel
  induction fuel with
  | zero =>
    intro current sideways restarts evals t
    refine ⟨?_, ?_, ?_⟩
    · intro r hr; simp [hcClimb] at hr
    · simp [hcClimb]
    · intro r hr; simp [hcClimb] at hr
  | succ f ih =>
    intro current sideways restarts evals t
    simp only [hcClimb]
    split_ifs with h1 h2 h3 h4 h5 h6 h7
    -- h1 : solution found
    · refine ⟨?_, List.chain'_singleton _, ?_⟩
      · intro r hr
        rw [List.mem_singleton] at hr
        subst hr
        exact Or.inr (Or.inl rfl)
      · intro r hr hacc htol
        obtain rfl := Option.some.inj hr
        exact absurd hacc (hcNotAccepted (by decide) (by decide))
    -- h2 : strictly better neighbor; note `Improved`
    · obtain ⟨ihn, ihc, ihl⟩ := ih _ 0 restarts _ (t + 1)
      refine ⟨?_, ?_, ?_⟩
      · intro r hr
        rw [List.mem_cons] at hr
        rcases hr with rfl | hr
        · exact Or.inr (Or.inr (Or.inl rfl))
        · exact ihn r hr
      · refine List.chain'_cons'.mpr ⟨?_, ihc⟩
        intro b hb hacc htol
        exact ihl b (Option.mem_def.mp hb) hacc htol
      · intro r hr hacc htol
        obtain rfl := Option.some.inj hr
        exact h2.le
    -- h3 : sideways-qualifying neighbor, h4 : sideways budget left,
    -- h5 : equal-cost sideways (`Sideways`) vs tolerance-only (`Sideways (≈)`)
    · obtain ⟨ihn, ihc, ihl⟩ := ih _ (sideways + 1) restarts _ (t + 1)
      refine ⟨?_, ?_, ?_⟩
      · intro r hr
        rw [List.mem_cons] at hr
        rcases hr with rfl | hr
        · exact Or.inr (Or.inr (Or.inr (Or.inl (strStarts_self_append _ _))))
        · exact ihn r hr
      · refine List.chain'_cons'.mpr ⟨?_, ihc⟩
        intro b hb hacc htol
        exact ihl b (Option.mem_def.mp hb) hacc htol
      · intro r hr hacc htol
        obtain rfl := Option.some.inj hr
        exact le_of_eq h5
    · obtain ⟨ihn, ihc, ihl⟩ := ih _ (sideways + 1) restarts _ (t + 1)
      refine ⟨?_, ?_, ?_⟩
      · intro r hr
        rw [List.mem_cons] at hr
        rcases hr with rfl | hr
        · exact Or.inr (Or.inr (Or.inr (Or.inl
            (strStarts_mono_left _ _ _ (by decide)))))
        · exact ihn r hr
      · refine List.chain'_cons'.mpr ⟨?_, ihc⟩
        intro b hb hacc htol
        exact ihl b (Option.mem_def.mp hb) hacc htol
      · intro r hr hacc htol
        obtain rfl := Option.some.inj hr
        exact absurd (strStarts_self_append "Sideways (≈)" _) htol
    -- h6 : sideways budget exhausted, restart budget left
    · obtain ⟨ihn, ihc, ihl⟩ := ih _ 0 (restarts + 1) _ (t + 1)
      refine ⟨?_, ?_, ?_⟩
      · intro r hr
        rw [List.mem_cons] at hr
        rcases hr with rfl | hr
        · exact Or.inr (Or.inr (Or.inr (Or.inr (Or.inr (Or.inr rfl)))))
        · rw [List.mem_cons] at hr
          rcases hr with rfl | hr
          · exact Or.inr (Or.inr (Or.inr (Or.inr (Or.inl (strStarts_self_append _ _)))))
          · exact ihn r hr
      · refine List.chain'_cons'.mpr ⟨?_, List.chain'_cons'.mpr ⟨?_, ihc⟩⟩
        · intro b hb hacc htol
          obtain rfl := Option.some.inj (Option.mem_def.mp hb)
          unfold hcAccepted at hacc
          rcases hacc with hi | hs
          · exact absurd hi (restart_note_ne_improved _)
          · exact absurd hs (not_strStarts_sideways_restart _)
        · intro b hb hacc htol
          exact ihl b (Option.mem_def.mp hb) hacc htol
      · intro r hr hacc htol
        obtain rfl := Option.some.inj hr
        exact absurd hacc (hcNotAccepted (by decide) (by decide))
    -- sideways budget exhausted, no restarts left
    · refine ⟨?_, List.chain'_singleton _, ?_⟩
      · intro r hr
        rw [List.mem_singleton] at hr
        subst hr
        exact Or.inr (Or.inr (Or.inr (Or.inr (Or.inr (Or.inl rfl)))))
      · intro r hr hacc htol
        obtain rfl := Option.some.inj hr
        exact absurd hacc (hcNotAccepted (by decide) (by decide))
    -- h7 : worse neighbor, restart budget left
    · obtain ⟨ihn, ihc, ihl⟩ := ih _ 0 (restarts + 1) _ (t + 1)
      refine ⟨?_, ?_, ?_⟩
      · intro r hr
        rw [List.mem_cons] at hr
        rcases hr with rfl | hr
        · exact Or.inr (Or.inr (Or.inr (Or.inr (Or.inr (Or.inr rfl)))))
        · rw [List.mem_cons] at hr
          rcases hr with rfl | hr
          · exact Or.inr (Or.inr (Or.inr (Or.inr (Or.inl (strStarts_self_append _ _)))))
          · exact ihn r hr
      · refine List.chain'_cons'.mpr ⟨?_, List.chain'_cons'.mpr ⟨?_, ihc⟩⟩
        · intro b hb hacc htol
          obtain rfl := Option.some.inj (Option.mem_def.mp hb)
          unfold hcAccepted at hacc
          rcases hacc with hi | hs
          · exact absurd hi (restart_note_ne_improved _)
          · exact absurd hs (not_strStarts_sideways_restart _)
        · intro b hb hacc htol
          exact ihl b (Option.mem_def.mp hb) hacc htol
      · intro r hr hacc htol
        obtain rfl := Option.some.inj hr
        exact absurd hacc (hcNotAccepted (by decide) (by decide))
    -- worse neighbor, no restarts left
    · refine ⟨?_, List.chain'_singleton _, ?_⟩
      · intro r hr
        rw [List.mem_singleton] at hr
        subst hr
        exact Or.inr (Or.inr (Or.inr (Or.inr (Or.inr (Or.inl rfl)))))
      · intro r hr hacc htol
        obtain rfl := Option.some.inj hr
        exact absurd hacc (hcNotAccepted (by decide) (by decide))

/-- C3 counterexample: with `sidewaysTolerance = 1/5` the run
`10 → 8 → 9 → stuck` accepts the cost-9 state from the cost-8 state as a
`Sideways (≈)` move, so the sequence of accepted-state costs increases with no
restart in between, falsifying the claim for tolerances in `(0,1)`. -/
theorem hillClimbing_accepted_costs_counterexample :
    hillClimbing hcDemoProblem ⟨1, 0, 1/5⟩ (fun _ => 0) 4 0 =
      [⟨0, "Initial State", 0, 0⟩, ⟨1, "Improved", 0, 1⟩,
        ⟨2, "Sideways (≈) move 1/1", 0, 2⟩, ⟨2, "Stuck (Local Maxima)", 0, 3⟩] ∧
    ¬ List.Chain' (hcMonoClaimed hcDemoProblem.cost)
        (hillClimbing hcDemoProblem ⟨1, 0, 1/5⟩ (fun _ => 0) 4 0) := by
  have htrace : hillClimbing hcDemoProblem ⟨1, 0, 1/5⟩ (fun _ => 0) 4 0 =
      [⟨0, "Initial State", 0, 0⟩, ⟨1, "Improved", 0, 1⟩,
        ⟨2, "Sideways (≈) move 1/1", 0, 2⟩, ⟨2, "Stuck (Local Maxima)", 0, 3⟩] := by
    norm_num [hillClimbing, hcClimb, hcDemoProblem, hcDataset]
    decide
  refine ⟨htrace, ?_⟩
  intro hch
  rw [htrace] at hch
  have h2 := (List.chain'_cons.mp (List.chain'_cons.mp hch).2).1
  have hle : hcDemoProblem.cost (⟨2, "Sideways (≈) move 1/1", 0, 2⟩ : HCRecord ℕ).state ≤
      hcDemoProblem.cost (⟨1, "Improved", 0, 1⟩ : HCRecord ℕ).state :=
    h2 (by decide) (by decide)
  norm_num [hcDemoProblem] at hle

/-- C3 (amended): for every run of `hillClimbing`, the sequence of costs of
accepted states (`Improved` or `Sideways` records) is non-increasing, except
immediately after a restart or at a move accepted purely via the cost
tolerance (a `Sideways (≈)` record, which can only occur with
`sidewaysTolerance > 0` and may increase cost). -/
theorem hillClimbing_accepted_costs_nonincreasing {S : Type} (P : HCProblem S)
    (p : HCParams) (rng : ℕ → ℕ) (fuel : ℕ) (init : S) :
    List.Chain' (hcMono P.cost) (hillClimbing P p rng fuel init) := by
  obtain ⟨-, hc, hl⟩ := hcClimb_chain P p rng fuel init 0 0 0 0
  unfold hillClimbing
  refine List.chain'_cons'.mpr ⟨?_, hc⟩
  intro b hb hacc htol
  exact hl b (Option.mem_def.mp hb) hacc htol

/-- C2 counterexample: two runs with distinct terminal outcomes — one ends
`Solution Found!`, the other `Stuck (Local Maxima)` — whose terminal step
records agree on every field except the free-text `note` (same `state`, same
`restartCount`, same `evaluations`).  The emitted record carries no `terminal`
flag and no structured status field, so the driver cannot distinguish these
outcomes without parsing the note string. -/
theorem stepRecord_no_structured_status_counterexample :
    hillClimbing hcSolvedProblem ⟨0, 0, 0⟩ (fun _ => 0) 3 7 =
      [⟨7, "Initial State", 0, 0⟩, ⟨8, "Improved", 0, 1⟩,
        ⟨8, "Solution Found!", 0, 1⟩] ∧
    hillClimbing hcStuckProblem ⟨0, 0, 0⟩ (fun _ => 0) 3 8 =
      [⟨8, "Initial State", 0, 0⟩, ⟨8, "Stuck (Local Maxima)", 0, 1⟩] ∧
    (⟨8, "Solution Found!", 0, 1⟩ : HCRecord ℕ).state =
      (⟨8, "Stuck (Local Maxima)", 0, 1⟩ : HCRecord ℕ).state ∧
    (⟨8, "Solution Found!", 0, 1⟩ : HCRecord ℕ).restartCount =
      (⟨8, "Stuck (Local Maxima)", 0, 1⟩ : HCRecord ℕ).restartCount ∧
    (⟨8, "Solution Found!", 0, 1⟩ : HCRecord ℕ).evaluations =
      (⟨8, "Stuck (Local Maxima)", 0, 1⟩ : HCRecord ℕ).evaluations ∧
    (⟨8, "Solution Found!", 0, 1⟩ : HCRecord ℕ).note ≠
      (⟨8, "Stuck (Local Maxima)", 0, 1⟩ : HCRecord ℕ).note := by
  refine ⟨?_, ?_, rfl, rfl, rfl, by decide⟩
  · norm_num [hillClimbing, hcClimb, hcSolvedProblem, hcDataset]
  · norm_num [hillClimbing, hcClimb, hcStuckProblem, hcDataset]

/-- C2 (amended): step records carry only `state`, `note`, `restartCount` and
`evaluations` — no terminal flag and no structured status field.  Distinct
terminal outcomes are distinguishable only through the free-text note: every
note emitted by `hillClimbing` is one of the fixed shapes below, and the two
terminal notes `Solution Found!` and `Stuck (Local Maxima)` are distinct
strings. -/
theorem stepRecord_notes_classify_outcomes {S : Type} (P : HCProblem S)
    (p : HCParams) (rng : ℕ → ℕ) (fuel : ℕ) (init : S) :
    (∀ r ∈ hillClimbing P p rng fuel init, hcNoteShape r.note) ∧
    ("Solution Found!" : String) ≠ "Stuck (Local Maxima)" := by
  obtain ⟨hn, -, -⟩ := hcClimb_chain P p rng fuel init 0 0 0 0
  refine ⟨?_, by decide⟩
  intro r hr
  unfold hillClimbing at hr
  rw [List.mem_cons] at hr
  rcases hr with rfl | hr
  · exact Or.inl rfl
  · exact hn r hr

theorem stepRecord_notes_classify_outcomes_witness :
    ((⟨8, "Initial State", 0, 0⟩ : HCRecord ℕ) ∈
      hillClimbing hcStuckProblem ⟨0, 0, 0⟩ (fun _ => 0) 3 8 ∧
      hcNoteShape (⟨(8 : ℕ), "Initial State", 0, 0⟩ : HCRecord ℕ).note) :=
  ⟨by norm_num [hillClimbing, hcClimb, hcStuckProblem, hcDataset],
    (stepRecord_notes_classify_outcomes hcStuckProblem ⟨0, 0, 0⟩ (fun _ => 0) 3 8).1
      ⟨8, "Initial State", 0, 0⟩
      (by norm_num [hillClimbing, hcClimb, hcStuckProblem, hcDataset])⟩

theorem head?_eq_getD {S : Type} [Inhabited S] (l : List S) (hne : l ≠ []) :
    l.head? = some (l.getD 0 default) := by
  cases l with
  | nil => exact absurd rfl hne
  | cons x xs => rfl

theorem getD_zero_mem {S : Type} [Inhabited S] (l : List S) (hne : l ≠ []) :
    l.getD 0 default ∈ l := by
  cases l with
  | nil => exact absurd rfl hne
  | cons x xs => exact List.mem_cons_self x xs

theorem getD_zero_take {S : Type} [Inhabited S] (k : ℕ) (l : List S) (hk : 1 ≤ k) :
    (l.take k).getD 0 default = l.getD 0 default := by
  cases l with
  | nil => simp
  | cons x xs =>
    cases k with
    | zero => omega
    | succ m => rfl

theorem sorted_head_min {S : Type} [Inhabited S] (P : GAProblem S) (l : List S)
    (hs : List.Sorted (gaCostLE P) l) (hne : l ≠ []) :
    ∀ y ∈ l, P.cost (l.getD 0 default) ≤ P.cost y := by
  cases l with
  | nil => exact absurd rfl hne
  | cons x xs =>
    intro y hy
    rcases List.mem_cons.mp hy with rfl | hy
    · exact le_refl _
    · exact (List.sorted_cons.mp hs).1 y hy

theorem gaChildren_length {S : Type} [Inhabited S] (P : GAProblem S)
    (survivors : List S) (rate : ℚ) (rng : ℕ → ℕ) :
    ∀ k t, (gaChildren P survivors rate rng k t).length = k := by
  intro k
  induction k with
  | zero => intro t; rfl
  | succ m ih => intro t; simp [gaChildren, ih]

theorem gaGeneration_length {S : Type} [Inhabited S] (P : GAProblem S)
    (p : GAParams) (rng : ℕ → ℕ) (population : List S) (t : ℕ)
    (hpop : 1 ≤ p.startingPopulationSize) :
    (gaGeneration P p rng population t).length = p.startingPopulationSize := by
  unfold gaGeneration
  by_cases he : p.elitism <;>
    simp [he, gaChildren_length] <;> omega

theorem gaRun_sorted_inv {S : Type} [Inhabited S] (P : GAProblem S) (p : GAParams)
    (rng : ℕ → ℕ) (hpop : 1 ≤ p.startingPopulationSize) :
    ∀ g gen pop evals t, pop ≠ [] → List.Sorted (gaCostLE P) pop →
      ∀ r ∈ gaRun P p rng g gen pop evals t,
        r.population.head? = some r.state ∧
        List.Sorted (gaCostLE P) r.population ∧
        (∀ y ∈ r.population, P.cost r.state ≤ P.cost y) := by
  intro g
  induction g with
  | zero => intro gen pop evals t hne hs r hr; simp [gaRun] at hr
  | succ m ih =>
    intro gen pop evals t hne hs r hr
    rw [gaRun] at hr
    have hlen : (List.insertionSort (gaCostLE P)
        (gaGeneration P p rng pop t)).length = p.startingPopulationSize := by
      rw [(List.perm_insertionSort _ _).length_eq]
      exact gaGeneration_length P p rng pop t hpop
    have hne2 : List.insertionSort (gaCostLE P) (gaGeneration P p rng pop t) ≠ [] := by
      intro hc
      rw [hc] at hlen
      simp at hlen
      omega
    have hs2 : List.Sorted (gaCostLE P)
        (List.insertionSort (gaCostLE P) (gaGeneration P p rng pop t)) :=
      List.sorted_insertionSort _ _
    by_cases hsol : P.isSolution (pop.getD 0 default)
    · simp only [hsol, if_true, List.mem_singleton] at hr
      subst hr
      exact ⟨head?_eq_getD pop hne, hs, sorted_head_min P pop hs hne⟩
    · simp only [hsol, Bool.false_eq_true, if_false, List.mem_cons] at hr
      rcases hr with rfl | hr
      · exact ⟨head?_eq_getD _ hne2, hs2, sorted_head_min P _ hs2 hne2⟩
      · exact ih _ _ _ _ hne2 hs2 r hr

/-- C9: every step record emitted by `geneticAlgorithm` has its population
sorted in non-decreasing cost order, and the record's primary state is
`population[0]`, a minimum-cost individual of that generation. -/
theorem geneticAlgorithm_population_sorted {S : Type} [Inhabited S]
    (P : GAProblem S) (p : GAParams) (rng : ℕ → ℕ)
    (hpop : 1 ≤ p.startingPopulationSize) :
    ∀ r ∈ geneticAlgorithm P p rng,
      r.population.head? = some r.state ∧
      List.Sorted (gaCostLE P) r.population ∧
      (∀ y ∈ r.population, P.cost r.state ≤ P.cost y) := by
  intro r hr
  have hlen : (List.insertionSort (gaCostLE P)
      ((List.range p.startingPopulationSize).map
        (fun i => P.randomState (rng i)))).length = p.startingPopulationSize := by
    rw [(List.perm_insertionSort _ _).length_eq]
    simp
  have hne : List.insertionSort (gaCostLE P)
      ((List.range p.startingPopulationSize).map
        (fun i => P.randomState (rng i))) ≠ [] := by
    intro hc
    rw [hc] at hlen
    simp at hlen
    omega
  have hs : List.Sorted (gaCostLE P) (List.insertionSort (gaCostLE P)
      ((List.range p.startingPopulationSize).map
        (fun i => P.randomState (rng i)))) :=
    List.sorted_insertionSort _ _
  unfold geneticAlgorithm at hr
  rw [List.mem_cons] at hr
  rcases hr with rfl | hr
  · exact ⟨head?_eq_getD _ hne, hs, sorted_head_min P _ hs hne⟩
  · exact gaRun_sorted_inv P p rng hpop _ _ _ _ _ hne hs r hr

theorem geneticAlgorithm_population_sorted_witness :
    1 ≤ (1 : ℕ) ∧
    ((⟨0, [0], "Gen 0 Best: 0.00 ", 1⟩ : GARecord ℕ) ∈
        geneticAlgorithm natGAProblem ⟨1, 0, 0, false, 0⟩ (fun _ => 0) ∧
      ((⟨(0 : ℕ), [0], "Gen 0 Best: 0.00 ", 1⟩ : GARecord ℕ).population.head? =
          some (⟨(0 : ℕ), [0], "Gen 0 Best: 0.00 ", 1⟩ : GARecord ℕ).state ∧
        List.Sorted (gaCostLE natGAProblem)
          (⟨(0 : ℕ), [0], "Gen 0 Best: 0.00 ", 1⟩ : GARecord ℕ).population ∧
        (∀ y ∈ (⟨(0 : ℕ), [0], "Gen 0 Best: 0.00 ", 1⟩ : GARecord ℕ).population,
          natGAProblem.cost (⟨(0 : ℕ), [0], "Gen 0 Best: 0.00 ", 1⟩ : GARecord ℕ).state ≤
            natGAProblem.cost y))) :=
  ⟨le_refl 1,
    have hmem : (⟨0, [0], "Gen 0 Best: 0.00 ", 1⟩ : GARecord ℕ) ∈
        geneticAlgorithm natGAProblem ⟨1, 0, 0, false, 0⟩ (fun _ => 0) := by
      norm_num [geneticAlgorithm, gaRun, gaCostLE, natGAProblem, ratToFixed2]
      decide
    ⟨hmem,
      geneticAlgorithm_population_sorted natGAProblem ⟨1, 0, 0, false, 0⟩
        (fun _ => 0) (le_refl 1) _ hmem⟩⟩

theorem gaRun_chain_inv {S : Type} [Inhabited S] (P : GAProblem S) (p : GAParams)
    (rng : ℕ → ℕ) (hpop : 1 ≤ p.startingPopulationSize)
    (helit : p.elitism = true)
    (hclone : ∀ s, P.cost (P.clone s) = P.cost s)
    (hkeep : p.cullRate ≤ 0 ∨
      1 ≤ (⌊(p.startingPopulationSize : ℚ) * (1 - p.cullRate)⌋).toNat) :
    ∀ g gen pop evals t, pop ≠ [] → pop.length = p.startingPopulationSize →
      List.Sorted (gaCostLE P) pop →
      List.Chain' (gaBestDominates P) (gaRun P p rng g gen pop evals t) ∧
      ∀ r, (gaRun P p rng g gen pop evals t).head? = some r →
        ∃ x ∈ r.population, ∀ y ∈ pop, P.cost x ≤ P.cost y := by
  intro g
  induction g with
  | zero =>
    intro gen pop evals t hne hlen hs
    exact ⟨List.chain'_nil, by intro r hr; simp [gaRun] at hr⟩
  | succ m ih =>
    intro gen pop evals t hne hlen hs
    rw [gaRun]
    split_ifs with hsol
    · refine ⟨List.chain'_singleton _, ?_⟩
      intro r hr
      obtain rfl := Option.some.inj hr
      exact ⟨pop.getD 0 default, getD_zero_mem pop hne, sorted_head_min P pop hs hne⟩
    · have hgen : gaGeneration P p rng pop t =
          P.clone ((if 0 < p.cullRate then
            pop.take (⌊(pop.length : ℚ) * (1 - p.cullRate)⌋).toNat else pop).getD 0 default) ::
          gaChildren P (if 0 < p.cullRate then
            pop.take (⌊(pop.length : ℚ) * (1 - p.cullRate)⌋).toNat else pop)
            p.mutationRate rng (p.startingPopulationSize - 1) t := by
        unfold gaGeneration
        rw [helit]
        simp
      have hsurv : (if 0 < p.cullRate then
          pop.take (⌊(pop.length : ℚ) * (1 - p.cullRate)⌋).toNat else pop).getD 0 default =
          pop.getD 0 default := by
        by_cases hc : 0 < p.cullRate
        · rw [if_pos hc]
          refine getD_zero_take _ pop ?_
          rw [hlen]
          exact hkeep.resolve_left (not_le.mpr hc)
        · rw [if_neg hc]
      have helite : P.clone ((if 0 < p.cullRate then
          pop.take (⌊(pop.length : ℚ) * (1 - p.cullRate)⌋).toNat else pop).getD 0 default) ∈
          List.insertionSort (gaCostLE P) (gaGeneration P p rng pop t) := by
        rw [List.mem_insertionSort, hgen]
        exact List.mem_cons_self _ _
      have heco : P.cost (P.clone ((if 0 < p.cullRate then
          pop.take (⌊(pop.length : ℚ) * (1 - p.cullRate)⌋).toNat else pop).getD 0 default)) =
          P.cost (pop.getD 0 default) := by
        rw [hclone, hsurv]
      have hlen2 : (List.insertionSort (gaCostLE P)
          (gaGeneration P p rng pop t)).length = p.startingPopulationSize := by
        rw [(List.perm_insertionSort _ _).length_eq]
        exact gaGeneration_length P p rng pop t hpop
      have hne2 : List.insertionSort (gaCostLE P) (gaGeneration P p rng pop t) ≠ [] := by
        intro hc
        rw [hc] at hlen2
        simp at hlen2
        omega
      have hs2 : List.Sorted (gaCostLE P)
          (List.insertionSort (gaCostLE P) (gaGeneration P p rng pop t)) :=
        List.sorted_insertionSort _ _
      obtain ⟨ihc, ihl⟩ := ih (gen + 1) _ _ _ hne2 hlen2 hs2
      refine ⟨List.chain'_cons'.mpr ⟨?_, ihc⟩, ?_⟩
      · intro b hb
        exact ihl b (Option.mem_def.mp hb)
      · intro r hr
        obtain rfl := Option.some.inj hr
        refine ⟨_, helite, ?_⟩
        intro y hy
        rw [heco]
        exact sorted_head_min P pop hs hne y hy

/-- C5: for every run of `geneticAlgorithm` with `elitism = true` (a
nonempty population, a culling rate that leaves at least one survivor, and a
cost-preserving `clone`), the minimum population cost never increases from one
emitted generation to the next: some member of each next population costs at
most every member of the previous one. -/
theorem geneticAlgorithm_elitism_best_monotone {S : Type} [Inhabited S]
    (P : GAProblem S) (p : GAParams) (rng : ℕ → ℕ)
    (hpop : 1 ≤ p.startingPopulationSize)
    (helit : p.elitism = true)
    (hclone : ∀ s, P.cost (P.clone s) = P.cost s)
    (hkeep : p.cullRate ≤ 0 ∨
      1 ≤ (⌊(p.startingPopulationSize : ℚ) * (1 - p.cullRate)⌋).toNat) :
    List.Chain' (gaBestDominates P) (geneticAlgorithm P p rng) := by
  have hlen : (List.insertionSort (gaCostLE P)
      ((List.range p.startingPopulationSize).map
        (fun i => P.randomState (rng i)))).length = p.startingPopulationSize := by
    rw [(List.perm_insertionSort _ _).length_eq]
    simp
  have hne : List.insertionSort (gaCostLE P)
      ((List.range p.startingPopulationSize).map
        (fun i => P.randomState (rng i))) ≠ [] := by
    intro hc
    rw [hc] at hlen
    simp at hlen
    omega
  have hs : List.Sorted (gaCostLE P) (List.insertionSort (gaCostLE P)
      ((List.range p.startingPopulationSize).map
        (fun i => P.randomState (rng i)))) :=
    List.sorted_insertionSort _ _
  obtain ⟨hchain, hlink⟩ :=
    gaRun_chain_inv P p rng hpop helit hclone hkeep p.maxGenerations 1 _
      p.startingPopulationSize p.startingPopulationSize hne hlen hs
  unfold geneticAlgorithm
  refine List.chain'_cons'.mpr ⟨?_, hchain⟩
  intro b hb
  exact hlink b (Option.mem_def.mp hb)

theorem geneticAlgorithm_elitism_best_monotone_witness :
    1 ≤ (1 : ℕ) ∧ (true = true) ∧
    (∀ s : ℕ, natGAProblem.cost (natGAProblem.clone s) = natGAProblem.cost s) ∧
    ((0 : ℚ) ≤ 0 ∨ 1 ≤ ((⌊((1 : ℕ) : ℚ) * (1 - (0 : ℚ))⌋).toNat)) ∧
    List.Chain' (gaBestDominates natGAProblem)
      (geneticAlgorithm natGAProblem ⟨1, 0, 0, true, 1⟩ (fun _ => 0)) :=
  ⟨le_refl 1, rfl, fun _ => rfl, Or.inl le_rfl,
    geneticAlgorithm_elitism_best_monotone natGAProblem ⟨1, 0, 0, true, 1⟩
      (fun _ => 0) (le_refl 1) rfl (fun _ => rfl) (Or.inl le_rfl)⟩

theorem bfsRun_cap_cases {S : Type} (P : BlindProblem S) (maxIter : ℕ) :
    ∀ fuel (q : List S) steps evals, steps < maxIter → maxIter ≤ steps + fuel →
      (∃ c e, (bfsRun P maxIter fuel q steps evals).2 = some "Solution Found!" ∧
        (bfsRun P maxIter fuel q steps evals).1.getLast? =
          some ⟨some c, "Solution Found!", e⟩ ∧ P.isSolution c = true ∧
        steps + ((bfsRun P maxIter fuel q steps evals).1.filter
          (fun r => decide (strStarts "BFS Queue:" r.note))).length ≤ maxIter) ∨
      ((bfsRun P maxIter fuel q steps evals).2 = some "No Solution Found (Exhausted)" ∧
        (∃ e, (bfsRun P maxIter fuel q steps evals).1.getLast? =
          some ⟨none, "No Solution Found (Exhausted)", e⟩) ∧
        steps + ((bfsRun P maxIter fuel q steps evals).1.filter
          (fun r => decide (strStarts "BFS Queue:" r.note))).length < maxIter) ∨
      (∃ c e, (bfsRun P maxIter fuel q steps evals).2 =
          some "Stopped (Max Iterations)" ∧
        (bfsRun P maxIter fuel q steps evals).1.getLast? =
          some ⟨some c, "Stopped (Max Iterations " ++ toString maxIter ++ ")", e⟩ ∧
        P.isSolution c = false ∧
        steps + ((bfsRun P maxIter fuel q steps evals).1.filter
          (fun r => decide (strStarts "BFS Queue:" r.note))).length = maxIter) := by
  intro fuel
  induction fuel with
  | zero => intro q steps evals h1 h2; omega
  | succ f ih =>
    intro q steps evals h1 h2
    match q with
    | [] =>
      refine Or.inr (Or.inl ⟨rfl, ⟨evals, ?_⟩, ?_⟩)
      · rw [bfsRun, List.getLast?_singleton]
      · rw [bfsRun]
        have hx : decide (strStarts "BFS Queue:" "No Solution Found (Exhausted)") =
            false := by decide
        simp only [List.filter_cons, hx, Bool.false_eq_true, if_false, List.filter_nil,
          List.length_nil]
        omega
    | cur :: rest =>
      have hp : decide (strStarts "BFS Queue:"
          ("BFS Queue: " ++ toString rest.length)) = true :=
        strStarts_append_decide_true _ _ _ (by decide) (by decide)
      rw [bfsRun]
      by_cases hsol : P.isSolution cur
      · simp only [hsol, if_true]
        refine Or.inl ⟨cur, evals, by trivial, ?_, hsol, ?_⟩
        · rw [List.getLast?_cons_cons, List.getLast?_singleton]
        · have hx : decide (strStarts "BFS Queue:" "Solution Found!") = false := by
            decide
          simp only [List.filter_cons, hp, if_true, hx, Bool.false_eq_true, if_false,
            List.filter_nil, List.length_cons, List.length_nil]
          omega
      · by_cases hcap : maxIter ≤ steps + 1
        · simp only [hsol, Bool.false_eq_true, if_false, if_pos hcap]
          refine Or.inr (Or.inr ⟨cur, evals, by trivial, ?_,
            by revert hsol; cases P.isSolution cur <;> simp, ?_⟩)
          · rw [List.getLast?_cons_cons, List.getLast?_singleton]
          · have hx : decide (strStarts "BFS Queue:"
                ("Stopped (Max Iterations " ++ toString maxIter ++ ")")) = false :=
              decide_strStarts_stop_false _ (by decide) (by decide) _
            simp only [List.filter_cons, hp, if_true, hx, Bool.false_eq_true, if_false,
              List.filter_nil, List.length_cons, List.length_nil]
            omega
        · simp only [hsol, Bool.false_eq_true, if_false, if_neg hcap]
          have hres := ih (rest ++ P.successors cur) (steps + 1)
            (evals + (P.successors cur).length) (by omega) (by omega)
          rcases hres with ⟨c, e, ho, hl, hs, hc⟩ | ⟨ho, ⟨e, hl⟩, hc⟩ |
            ⟨c, e, ho, hl, hs, hc⟩
          · refine Or.inl ⟨c, e, ho, ?_, hs, ?_⟩
            · cases hq : (bfsRun P maxIter f (rest ++ P.successors cur) (steps + 1)
                  (evals + (P.successors cur).length)).1 with
              | nil => rw [hq] at hl; simp at hl
              | cons x xs =>
                rw [hq] at hl
                simp only [hq, List.getLast?_cons_cons]
                exact hl
            · simp only [List.filter_cons, hp, if_true, List.length_cons]
              omega
          · refine Or.inr (Or.inl ⟨ho, ⟨e, ?_⟩, ?_⟩)
            · cases hq : (bfsRun P maxIter f (rest ++ P.successors cur) (steps + 1)
                  (evals + (P.successors cur).length)).1 with
              | nil => rw [hq] at hl; simp at hl
              | cons x xs =>
                rw [hq] at hl
                simp only [hq, List.getLast?_cons_cons]
                exact hl
            · simp only [List.filter_cons, hp, if_true, List.length_cons]
              omega
          · refine Or.inr (Or.inr ⟨c, e, ho, ?_, hs, ?_⟩)
            · cases hq : (bfsRun P maxIter f (rest ++ P.successors cur) (steps + 1)
                  (evals + (P.successors cur).length)).1 with
              | nil => rw [hq] at hl; simp at hl
              | cons x xs =>
                rw [hq] at hl
                simp only [hq, List.getLast?_cons_cons]
                exact hl
            · simp only [List.filter_cons, hp, if_true, List.length_cons]
              omega

theorem dfsRun_cap_cases {S : Type} (P : BlindProblem S) (maxIter : ℕ) :
    ∀ fuel (q : List S) steps evals, steps < maxIter → maxIter ≤ steps + fuel →
      (∃ c e, (dfsRun P maxIter fuel q steps evals).2 = some "Solution Found!" ∧
        (dfsRun P maxIter fuel q steps evals).1.getLast? =
          some ⟨some c, "Solution Found!", e⟩ ∧ P.isSolution c = true ∧
        steps + ((dfsRun P maxIter fuel q steps evals).1.filter
          (fun r => decide (strStarts "DFS Stack:" r.note))).length ≤ maxIter) ∨
      ((dfsRun P maxIter fuel q steps evals).2 = some "No Solution Found (Exhausted)" ∧
        (∃ e, (dfsRun P maxIter fuel q steps evals).1.getLast? =
          some ⟨none, "No Solution Found", e⟩) ∧
        steps + ((dfsRun P maxIter fuel q steps evals).1.filter
          (fun r => decide (strStarts "DFS Stack:" r.note))).length < maxIter) ∨
      (∃ c e, (dfsRun P maxIter fuel q steps evals).2 =
          some "Stopped (Max Iterations)" ∧
        (dfsRun P maxIter fuel q steps evals).1.getLast? =
          some ⟨some c, "Stopped (Max Iterations " ++ toString maxIter ++ ")", e⟩ ∧
        P.isSolution c = false ∧
        steps + ((dfsRun P maxIter fuel q steps evals).1.filter
          (fun r => decide (strStarts "DFS Stack:" r.note))).length = maxIter) := by
  intro fuel
  induction fuel with
  | zero => intro q steps evals h1 h2; omega
  | succ f ih =>
    intro q steps evals h1 h2
    match q with
    | [] =>
      refine Or.inr (Or.inl ⟨rfl, ⟨evals, ?_⟩, ?_⟩)
      · rw [dfsRun, List.getLast?_singleton]
      · rw [dfsRun]
        have hx : decide (strStarts "DFS Stack:" "No Solution Found") =
            false := by decide
        simp only [List.filter_cons, hx, Bool.false_eq_true, if_false, List.filter_nil,
          List.length_nil]
        omega
    | cur :: rest =>
      have hp : decide (strStarts "DFS Stack:"
          ("DFS Stack: " ++ toString rest.length)) = true :=
        strStarts_append_decide_true _ _ _ (by decide) (by decide)
      rw [dfsRun]
      by_cases hsol : P.isSolution cur
      · simp only [hsol, if_true]
        refine Or.inl ⟨cur, evals, by trivial, ?_, hsol, ?_⟩
        · rw [List.getLast?_cons_cons, List.getLast?_singleton]
        · have hx : decide (strStarts "DFS Stack:" "Solution Found!") = false := by
            decide
          simp only [List.filter_cons, hp, if_true, hx, Bool.false_eq_true, if_false,
            List.filter_nil, List.length_cons, List.length_nil]
          omega
      · by_cases hcap : maxIter ≤ steps + 1
        · simp only [hsol, Bool.false_eq_true, if_false, if_pos hcap]
          refine Or.inr (Or.inr ⟨cur, evals, by trivial, ?_,
            by revert hsol; cases P.isSolution cur <;> simp, ?_⟩)
          · rw [List.getLast?_cons_cons, List.getLast?_singleton]
          · have hx : decide (strStarts "DFS Stack:"
                ("Stopped (Max Iterations " ++ toString maxIter ++ ")")) = false :=
              decide_strStarts_stop_false _ (by decide) (by decide) _
            simp only [List.filter_cons, hp, if_true, hx, Bool.false_eq_true, if_false,
              List.filter_nil, List.length_cons, List.length_nil]
            omega
        · simp only [hsol, Bool.false_eq_true, if_false, if_neg hcap]
          have hres := ih (P.successors cur ++ rest) (steps + 1)
            (evals + (P.successors cur).length) (by omega) (by omega)
          rcases hres with ⟨c, e, ho, hl, hs, hc⟩ | ⟨ho, ⟨e, hl⟩, hc⟩ |
            ⟨c, e, ho, hl, hs, hc⟩
          · refine Or.inl ⟨c, e, ho, ?_, hs, ?_⟩
            · cases hq : (dfsRun P maxIter f (P.successors cur ++ rest) (steps + 1)
                  (evals + (P.successors cur).length)).1 with
              | nil => rw [hq] at hl; simp at hl
              | cons x xs =>
                rw [hq] at hl
                simp only [hq, List.getLast?_cons_cons]
                exact hl
            · simp only [List.filter_cons, hp, if_true, List.length_cons]
              omega
          · refine Or.inr (Or.inl ⟨ho, ⟨e, ?_⟩, ?_⟩)
            · cases hq : (dfsRun P maxIter f (P.successors cur ++ rest) (steps + 1)
                  (evals + (P.successors cur).length)).1 with
              | nil => rw [hq] at hl; simp at hl
              | cons x xs =>
                rw [hq] at hl
                simp only [hq, List.getLast?_cons_cons]
                exact hl
            · simp only [List.filter_cons, hp, if_true, List.length_cons]
              omega
          · refine Or.inr (Or.inr ⟨c, e, ho, ?_, hs, ?_⟩)
            · cases hq : (dfsRun P maxIter f (P.successors cur ++ rest) (steps + 1)
                  (evals + (P.successors cur).length)).1 with
              | nil => rw [hq] at hl; simp at hl
              | cons x xs =>
                rw [hq] at hl
                simp only [hq, List.getLast?_cons_cons]
                exact hl
            · simp only [List.filter_cons, hp, if_true, List.length_cons]
              omega

theorem backtrackingRun_cap_cases {S : Type} (P : BlindProblem S) (maxIter : ℕ) :
    ∀ fuel (q : List S) steps evals, steps < maxIter → maxIter ≤ steps + fuel →
      (∃ c e, (backtrackingRun P maxIter fuel q steps evals).2 = some "Solution Found!" ∧
        (backtrackingRun P maxIter fuel q steps evals).1.getLast? =
          some ⟨some c, "Solution Found!", e⟩ ∧ P.isSolution c = true ∧
        steps + ((backtrackingRun P maxIter fuel q steps evals).1.filter
          (fun r => decide (strStarts "Backtrack Stack:" r.note))).length ≤ maxIter) ∨
      ((backtrackingRun P maxIter fuel q steps evals).2 = some "No Solution Found (Exhausted)" ∧
        (∃ e, (backtrackingRun P maxIter fuel q steps evals).1.getLast? =
          some ⟨none, "No Solution Found", e⟩) ∧
        steps + ((backtrackingRun P maxIter fuel q steps evals).1.filter
          (fun r => decide (strStarts "Backtrack Stack:" r.note))).length < maxIter) ∨
      (∃ c e, (backtrackingRun P maxIter fuel q steps evals).2 =
          some "Stopped (Max Iterations)" ∧
        (backtrackingRun P maxIter fuel q steps evals).1.getLast? =
          some ⟨some c, "Stopped (Max Iterations " ++ toString maxIter ++ ")", e⟩ ∧
        P.isSolution c = false ∧
        steps + ((backtrackingRun P maxIter fuel q steps evals).1.filter
          (fun r => decide (strStarts "Backtrack Stack:" r.note))).length = maxIter) := by
  intro fuel
  induction fuel with
  | zero => intro q steps evals h1 h2; omega
  | succ f ih =>
    intro q steps evals h1 h2
    match q with
    | [] =>
      refine Or.inr (Or.inl ⟨rfl, ⟨evals, ?_⟩, ?_⟩)
      · rw [backtrackingRun, List.getLast?_singleton]
      · rw [backtrackingRun]
        have hx : decide (strStarts "Backtrack Stack:" "No Solution Found") =
            false := by decide
        simp only [List.filter_cons, hx, Bool.false_eq_true, if_false, List.filter_nil,
          List.length_nil]
        omega
    | cur :: rest =>
      have hp : decide (strStarts "Backtrack Stack:"
          ("Backtrack Stack: " ++ toString rest.length)) = true :=
        strStarts_append_decide_true _ _ _ (by decide) (by decide)
      rw [backtrackingRun]
      by_cases hsol : P.isSolution cur
      · simp only [hsol, if_true]
        refine Or.inl ⟨cur, evals, by trivial, ?_, hsol, ?_⟩
        · rw [List.getLast?_cons_cons, List.getLast?_singleton]
        · have hx : decide (strStarts "Backtrack Stack:" "Solution Found!") = false := by
            decide
          simp only [List.filter_cons, hp, if_true, hx, Bool.false_eq_true, if_false,
            List.filter_nil, List.length_cons, List.length_nil]
          omega
      · by_cases hcap : maxIter ≤ steps + 1
        · simp only [hsol, Bool.false_eq_true, if_false, if_pos hcap]
          refine Or.inr (Or.inr ⟨cur, evals, by trivial, ?_,
            by revert hsol; cases P.isSolution cur <;> simp, ?_⟩)
          · rw [List.getLast?_cons_cons, List.getLast?_singleton]
          · have hx : decide (strStarts "Backtrack Stack:"
                ("Stopped (Max Iterations " ++ toString maxIter ++ ")")) = false :=
              decide_strStarts_stop_false _ (by decide) (by decide) _
            simp only [List.filter_cons, hp, if_true, hx, Bool.false_eq_true, if_false,
              List.filter_nil, List.length_cons, List.length_nil]
            omega
        · by_cases hval : P.partiallyValid cur
          · simp only [hsol, Bool.false_eq_true, if_false, if_neg hcap, hval, if_true]
            have hres := ih (P.successors cur ++ rest) (steps + 1)
              (evals + (P.successors cur).length) (by omega) (by omega)
            rcases hres with ⟨c, e, ho, hl, hs, hc⟩ | ⟨ho, ⟨e, hl⟩, hc⟩ |
              ⟨c, e, ho, hl, hs, hc⟩
            · refine Or.inl ⟨c, e, ho, ?_, hs, ?_⟩
              · cases hq : (backtrackingRun P maxIter f (P.successors cur ++ rest) (steps + 1)
                    (evals + (P.successors cur).length)).1 with
                | nil => rw [hq] at hl; simp at hl
                | cons x xs =>
                  rw [hq] at hl
                  simp only [hq, List.getLast?_cons_cons]
                  exact hl
              · simp only [List.filter_cons, hp, if_true, List.length_cons]
                omega
            · refine Or.inr (Or.inl ⟨ho, ⟨e, ?_⟩, ?_⟩)
              · cases hq : (backtrackingRun P maxIter f (P.successors cur ++ rest) (steps + 1)
                    (evals + (P.successors cur).length)).1 with
                | nil => rw [hq] at hl; simp at hl
                | cons x xs =>
                  rw [hq] at hl
                  simp only [hq, List.getLast?_cons_cons]
                  exact hl
              · simp only [List.filter_cons, hp, if_true, List.length_cons]
                omega
            · refine Or.inr (Or.inr ⟨c, e, ho, ?_, hs, ?_⟩)
              · cases hq : (backtrackingRun P maxIter f (P.successors cur ++ rest) (steps + 1)
                    (evals + (P.successors cur).length)).1 with
                | nil => rw [hq] at hl; simp at hl
                | cons x xs =>
                  rw [hq] at hl
                  simp only [hq, List.getLast?_cons_cons]
                  exact hl
              · simp only [List.filter_cons, hp, if_true, List.length_cons]
                omega
          · simp only [hsol, Bool.false_eq_true, if_false, if_neg hcap, hval]
            have hres := ih rest (steps + 1)
              evals (by omega) (by omega)
            rcases hres with ⟨c, e, ho, hl, hs, hc⟩ | ⟨ho, ⟨e, hl⟩, hc⟩ |
              ⟨c, e, ho, hl, hs, hc⟩
            · refine Or.inl ⟨c, e, ho, ?_, hs, ?_⟩
              · cases hq : (backtrackingRun P maxIter f rest (steps + 1)
                    evals).1 with
                | nil => rw [hq] at hl; simp at hl
                | cons x xs =>
                  rw [hq] at hl
                  simp only [hq, List.getLast?_cons_cons]
                  exact hl
              · simp only [List.filter_cons, hp, if_true, List.length_cons]
                omega
            · refine Or.inr (Or.inl ⟨ho, ⟨e, ?_⟩, ?_⟩)
              · cases hq : (backtrackingRun P maxIter f rest (steps + 1)
                    evals).1 with
                | nil => rw [hq] at hl; simp at hl
                | cons x xs =>
                  rw [hq] at hl
                  simp only [hq, List.getLast?_cons_cons]
                  exact hl
              · simp only [List.filter_cons, hp, if_true, List.length_cons]
                omega
            · refine Or.inr (Or.inr ⟨c, e, ho, ?_, hs, ?_⟩)
              · cases hq : (backtrackingRun P maxIter f rest (steps + 1)
                    evals).1 with
                | nil => rw [hq] at hl; simp at hl
                | cons x xs =>
                  rw [hq] at hl
                  simp only [hq, List.getLast?_cons_cons]
                  exact hl
              · simp only [List.filter_cons, hp, if_true, List.length_cons]
                omega

/-- C1 counterexample: neither `forwardChecking` nor `arcConsistency` ever
consults `maxIterations`.  On the 1-queens instance with `maxIterations = 1`
each run performs two node expansions (two stack records) — exceeding the cap
before a solution is found and before the frontier empties — yet continues to
the `Solution Found!` outcome, and no emitted record is a stopped-at-limit
outcome. -/
theorem fc_ac3_ignore_iteration_cap :
    (fcRun (nqCSP 1) 10 [(nqCSP 1).root] 0).1 =
      [⟨some ⟨[], [[0]]⟩, "FC Stack: 0", 0⟩,
        ⟨some ⟨[0], [[0]]⟩, "FC Stack: 0", 1⟩,
        ⟨some ⟨[0], [[0]]⟩, "Solution Found!", 1⟩] ∧
    (fcRun (nqCSP 1) 10 [(nqCSP 1).root] 0).2 = some "Solution Found!" ∧
    2 ≤ ((fcRun (nqCSP 1) 10 [(nqCSP 1).root] 0).1.filter
      (fun r => decide (strStarts "FC Stack:" r.note))).length ∧
    (∀ r ∈ (fcRun (nqCSP 1) 10 [(nqCSP 1).root] 0).1,
      ¬ strStarts "Stopped" r.note) ∧
    (acRun (nqCSPAC3 10 1) 10 [(nqCSPAC3 10 1).root] 0).1 =
      [⟨some ⟨[], [[0]]⟩, "AC-3 Stack: 0", 0⟩,
        ⟨some ⟨[0], [[0]]⟩, "AC-3 Stack: 0", 1⟩,
        ⟨some ⟨[0], [[0]]⟩, "Solution Found!", 1⟩] ∧
    (acRun (nqCSPAC3 10 1) 10 [(nqCSPAC3 10 1).root] 0).2 = some "Solution Found!" ∧
    2 ≤ ((acRun (nqCSPAC3 10 1) 10 [(nqCSPAC3 10 1).root] 0).1.filter
      (fun r => decide (strStarts "AC-3 Stack:" r.note))).length ∧
    ∀ r ∈ (acRun (nqCSPAC3 10 1) 10 [(nqCSPAC3 10 1).root] 0).1,
      ¬ strStarts "Stopped" r.note := by
  decide

/-- C1 (amended): `bfs`, `dfs` and `backtracking` enforce the iteration cap.
For any `maxIterations = m ≥ 1`, each run satisfies the trichotomy: either a
solution is found within `m` node expansions (terminal `Solution Found!`
record on a solution state); or the frontier empties strictly before `m`
expansions (terminal exhaustion record, `No Solution Found (Exhausted)`
outcome); or — exactly when the expansion count reaches `m` with no solution
found and no exhaustion — the run terminates with the
`Stopped (Max Iterations)` outcome and a terminal
`Stopped (Max Iterations m)` record on a non-solution state.  The three
outcome strings are pairwise distinct.  `forwardChecking` and
`arcConsistency` never read `maxIterations` and enforce no cap (see the
counterexample). -/
theorem blind_searches_enforce_iteration_cap {S : Type} (P : BlindProblem S)
    (m : ℕ) (hm : 1 ≤ m) :
    ((∃ c e, (bfsRun P m m [P.root] 0 0).2 = some "Solution Found!" ∧
        (bfsRun P m m [P.root] 0 0).1.getLast? = some ⟨some c, "Solution Found!", e⟩ ∧
        P.isSolution c = true ∧
        ((bfsRun P m m [P.root] 0 0).1.filter
          (fun r => decide (strStarts "BFS Queue:" r.note))).length ≤ m) ∨
      ((bfsRun P m m [P.root] 0 0).2 = some "No Solution Found (Exhausted)" ∧
        (∃ e, (bfsRun P m m [P.root] 0 0).1.getLast? = some ⟨none, "No Solution Found (Exhausted)", e⟩) ∧
        ((bfsRun P m m [P.root] 0 0).1.filter
          (fun r => decide (strStarts "BFS Queue:" r.note))).length < m) ∨
      (∃ c e, (bfsRun P m m [P.root] 0 0).2 = some "Stopped (Max Iterations)" ∧
        (bfsRun P m m [P.root] 0 0).1.getLast? =
          some ⟨some c, "Stopped (Max Iterations " ++ toString m ++ ")", e⟩ ∧
        P.isSolution c = false ∧
        ((bfsRun P m m [P.root] 0 0).1.filter
          (fun r => decide (strStarts "BFS Queue:" r.note))).length = m)) ∧
    ((∃ c e, (dfsRun P m m [P.root] 0 0).2 = some "Solution Found!" ∧
        (dfsRun P m m [P.root] 0 0).1.getLast? = some ⟨some c, "Solution Found!", e⟩ ∧
        P.isSolution c = true ∧
        ((dfsRun P m m [P.root] 0 0).1.filter
          (fun r => decide (strStarts "DFS Stack:" r.note))).length ≤ m) ∨
      ((dfsRun P m m [P.root] 0 0).2 = some "No Solution Found (Exhausted)" ∧
        (∃ e, (dfsRun P m m [P.root] 0 0).1.getLast? = some ⟨none, "No Solution Found", e⟩) ∧
        ((dfsRun P m m [P.root] 0 0).1.filter
          (fun r => decide (strStarts "DFS Stack:" r.note))).length < m) ∨
      (∃ c e, (dfsRun P m m [P.root] 0 0).2 = some "Stopped (Max Iterations)" ∧
        (dfsRun P m m [P.root] 0 0).1.getLast? =
          some ⟨some c, "Stopped (Max Iterations " ++ toString m ++ ")", e⟩ ∧
        P.isSolution c = false ∧
        ((dfsRun P m m [P.root] 0 0).1.filter
          (fun r => decide (strStarts "DFS Stack:" r.note))).length = m)) ∧
    ((∃ c e, (backtrackingRun P m m [P.root] 0 0).2 = some "Solution Found!" ∧
        (backtrackingRun P m m [P.root] 0 0).1.getLast? = some ⟨some c, "Solution Found!", e⟩ ∧
        P.isSolution c = true ∧
        ((backtrackingRun P m m [P.root] 0 0).1.filter
          (fun r => decide (strStarts "Backtrack Stack:" r.note))).length ≤ m) ∨
      ((backtrackingRun P m m [P.root] 0 0).2 = some "No Solution Found (Exhausted)" ∧
        (∃ e, (backtrackingRun P m m [P.root] 0 0).1.getLast? = some ⟨none, "No Solution Found", e⟩) ∧
        ((backtrackingRun P m m [P.root] 0 0).1.filter
          (fun r => decide (strStarts "Backtrack Stack:" r.note))).length < m) ∨
      (∃ c e, (backtrackingRun P m m [P.root] 0 0).2 = some "Stopped (Max Iterations)" ∧
        (backtrackingRun P m m [P.root] 0 0).1.getLast? =
          some ⟨some c, "Stopped (Max Iterations " ++ toString m ++ ")", e⟩ ∧
        P.isSolution c = false ∧
        ((backtrackingRun P m m [P.root] 0 0).1.filter
          (fun r => decide (strStarts "Backtrack Stack:" r.note))).length = m)) ∧
    ("Stopped (Max Iterations)" : String) ≠ "Solution Found!" ∧
    ("Stopped (Max Iterations)" : String) ≠ "No Solution Found (Exhausted)" ∧
    ("Solution Found!" : String) ≠ "No Solution Found (Exhausted)" := by
  refine ⟨?_, ?_, ?_, by decide, by decide, by decide⟩
  · simpa only [Nat.zero_add] using bfsRun_cap_cases P m m [P.root] 0 0 (by omega)
      (by omega)
  · simpa only [Nat.zero_add] using dfsRun_cap_cases P m m [P.root] 0 0 (by omega)
      (by omega)
  · simpa only [Nat.zero_add] using backtrackingRun_cap_cases P m m [P.root] 0 0
      (by omega) (by omega)

/-- Witness for C1 on the chain problem (no solutions, frontier never
empties) with `maxIterations = 2`: the trichotomy holds, and concretely every
run hits the cap, ending with the `Stopped (Max Iterations)` outcome and a
`Stopped (Max Iterations 2)` record after exactly 2 expansions. -/
theorem blind_searches_enforce_iteration_cap_witness :
    1 ≤ 2 ∧
    (((∃ c e, (bfsRun chainBlindProblem 2 2 [chainBlindProblem.root] 0 0).2 = some "Solution Found!" ∧
        (bfsRun chainBlindProblem 2 2 [chainBlindProblem.root] 0 0).1.getLast? = some ⟨some c, "Solution Found!", e⟩ ∧
        chainBlindProblem.isSolution c = true ∧
        ((bfsRun chainBlindProblem 2 2 [chainBlindProblem.root] 0 0).1.filter
          (fun r => decide (strStarts "BFS Queue:" r.note))).length ≤ 2) ∨
      ((bfsRun chainBlindProblem 2 2 [chainBlindProblem.root] 0 0).2 = some "No Solution Found (Exhausted)" ∧
        (∃ e, (bfsRun chainBlindProblem 2 2 [chainBlindProblem.root] 0 0).1.getLast? = some ⟨none, "No Solution Found (Exhausted)", e⟩) ∧
        ((bfsRun chainBlindProblem 2 2 [chainBlindProblem.root] 0 0).1.filter
          (fun r => decide (strStarts "BFS Queue:" r.note))).length < 2) ∨
      (∃ c e, (bfsRun chainBlindProblem 2 2 [chainBlindProblem.root] 0 0).2 = some "Stopped (Max Iterations)" ∧
        (bfsRun chainBlindProblem 2 2 [chainBlindProblem.root] 0 0).1.getLast? =
          some ⟨some c, "Stopped (Max Iterations " ++ toString 2 ++ ")", e⟩ ∧
        chainBlindProblem.isSolution c = false ∧
        ((bfsRun chainBlindProblem 2 2 [chainBlindProblem.root] 0 0).1.filter
          (fun r => decide (strStarts "BFS Queue:" r.note))).length = 2)) ∧
    ((∃ c e, (dfsRun chainBlindProblem 2 2 [chainBlindProblem.root] 0 0).2 = some "Solution Found!" ∧
        (dfsRun chainBlindProblem 2 2 [chainBlindProblem.root] 0 0).1.getLast? = some ⟨some c, "Solution Found!", e⟩ ∧
        chainBlindProblem.isSolution c = true ∧
        ((dfsRun chainBlindProblem 2 2 [chainBlindProblem.root] 0 0).1.filter
          (fun r => decide (strStarts "DFS Stack:" r.note))).length ≤ 2) ∨
      ((dfsRun chainBlindProblem 2 2 [chainBlindProblem.root] 0 0).2 = some "No Solution Found (Exhausted)" ∧
        (∃ e, (dfsRun chainBlindProblem 2 2 [chainBlindProblem.root] 0 0).1.getLast? = some ⟨none, "No Solution Found", e⟩) ∧
        ((dfsRun chainBlindProblem 2 2 [chainBlindProblem.root] 0 0).1.filter
          (fun r => decide (strStarts "DFS Stack:" r.note))).length < 2) ∨
      (∃ c e, (dfsRun chainBlindProblem 2 2 [chainBlindProblem.root] 0 0).2 = some "Stopped (Max Iterations)" ∧
        (dfsRun chainBlindProblem 2 2 [chainBlindProblem.root] 0 0).1.getLast? =
          some ⟨some c, "Stopped (Max Iterations " ++ toString 2 ++ ")", e⟩ ∧
        chainBlindProblem.isSolution c = false ∧
        ((dfsRun chainBlindProblem 2 2 [chainBlindProblem.root] 0 0).1.filter
          (fun r => decide (strStarts "DFS Stack:" r.note))).length = 2)) ∧
    ((∃ c e, (backtrackingRun chainBlindProblem 2 2 [chainBlindProblem.root] 0 0).2 = some "Solution Found!" ∧
        (backtrackingRun chainBlindProblem 2 2 [chainBlindProblem.root] 0 0).1.getLast? = some ⟨some c, "Solution Found!", e⟩ ∧
        chainBlindProblem.isSolution c = true ∧
        ((backtrackingRun chainBlindProblem 2 2 [chainBlindProblem.root] 0 0).1.filter
          (fun r => decide (strStarts "Backtrack Stack:" r.note))).length ≤ 2) ∨
      ((backtrackingRun chainBlindProblem 2 2 [chainBlindProblem.root] 0 0).2 = some "No Solution Found (Exhausted)" ∧
        (∃ e, (backtrackingRun chainBlindProblem 2 2 [chainBlindProblem.root] 0 0).1.getLast? = some ⟨none, "No Solution Found", e⟩) ∧
        ((backtrackingRun chainBlindProblem 2 2 [chainBlindProblem.root] 0 0).1.filter
          (fun r => decide (strStarts "Backtrack Stack:" r.note))).length < 2) ∨
      (∃ c e, (backtrackingRun chainBlindProblem 2 2 [chainBlindProblem.root] 0 0).2 = some "Stopped (Max Iterations)" ∧
        (backtrackingRun chainBlindProblem 2 2 [chainBlindProblem.root] 0 0).1.getLast? =
          some ⟨some c, "Stopped (Max Iterations " ++ toString 2 ++ ")", e⟩ ∧
        chainBlindProblem.isSolution c = false ∧
        ((backtrackingRun chainBlindProblem 2 2 [chainBlindProblem.root] 0 0).1.filter
          (fun r => decide (strStarts "Backtrack Stack:" r.note))).length = 2)) ∧
    ("Stopped (Max Iterations)" : String) ≠ "Solution Found!" ∧
    ("Stopped (Max Iterations)" : String) ≠ "No Solution Found (Exhausted)" ∧
    ("Solution Found!" : String) ≠ "No Solution Found (Exhausted)") ∧
    (bfsRun chainBlindProblem 2 2 [chainBlindProblem.root] 0 0).2 =
      some "Stopped (Max Iterations)" ∧
    (bfsRun chainBlindProblem 2 2 [chainBlindProblem.root] 0 0).1 =
      [⟨some 0, "BFS Queue: 0", 0⟩, ⟨some 1, "BFS Queue: 0", 1⟩,
        ⟨some 1, "Stopped (Max Iterations 2)", 1⟩] ∧
    (dfsRun chainBlindProblem 2 2 [chainBlindProblem.root] 0 0).2 =
      some "Stopped (Max Iterations)" ∧
    (backtrackingRun chainBlindProblem 2 2 [chainBlindProblem.root] 0 0).2 =
      some "Stopped (Max Iterations)" :=
  ⟨by omega, blind_searches_enforce_iteration_cap chainBlindProblem 2 (by omega),
    by decide, by decide, by decide, by decide⟩

theorem getD_set_eq (l : List (List ℕ)) (i r : ℕ) (v : List ℕ) :
    (l.set i v).getD r [] = if i = r ∧ i < l.length then v else l.getD r [] := by
  simp only [List.getD_eq_getElem?_getD, List.getElem?_set]
  by_cases h1 : i = r
  · subst h1
    by_cases h2 : i < l.length
    · simp [h2]
    · simp [h2, List.getElem?_eq_none (le_of_not_lt h2)]
  · simp [h1]

theorem set_pointwise_sublist (A F : List (List ℕ)) (hl : A.length = F.length)
    (h : ∀ r, A.getD r [] <+ F.getD r []) (i : ℕ) (v : List ℕ) :
    ∀ r, (A.set i v).getD r [] <+ (F.set i v).getD r [] := by
  intro r
  rw [getD_set_eq, getD_set_eq, hl]
  by_cases hc : i = r ∧ i < F.length
  · rw [if_pos hc, if_pos hc]
  · rw [if_neg hc, if_neg hc]
    exact h r

theorem nqFCPrune_length (col row : ℕ) :
    ∀ r0 (ds : List (List ℕ)), (nqFCPrune col row r0 ds).length = ds.length := by
  intro r0 ds
  induction ds generalizing r0 with
  | nil => rfl
  | cons d rest ih => simp [nqFCPrune, ih]

theorem nqFCPrune_getD (col row : ℕ) :
    ∀ (ds : List (List ℕ)) (r0 r : ℕ),
      (nqFCPrune col row r0 ds).getD r [] =
        if r < ds.length ∧ row < r0 + r then
          nqFCFilter col ((r0 + r) - row) (ds.getD r [])
        else ds.getD r [] := by
  intro ds
  induction ds with
  | nil => intro r0 r; simp [nqFCPrune]
  | cons d rest ih =>
    intro r0 r
    match r with
    | 0 =>
      simp only [nqFCPrune, List.getD_cons_zero, List.length_cons, Nat.add_zero]
      by_cases hc : row < r0
      · rw [if_pos hc, if_pos (by omega)]
      · rw [if_neg hc, if_neg (by omega)]
    | k + 1 =>
      show (nqFCPrune col row (r0 + 1) rest).getD k [] = _
      rw [ih (r0 + 1) k]
      simp only [List.length_cons, List.getD_cons_succ]
      have hiff : (k < rest.length ∧ row < r0 + 1 + k) ↔
          (k + 1 < rest.length + 1 ∧ row < r0 + (k + 1)) := by omega
      have harith : r0 + 1 + k = r0 + (k + 1) := by omega
      by_cases hc : k < rest.length ∧ row < r0 + 1 + k
      · rw [if_pos hc, if_pos (hiff.mp hc), harith]
      · rw [if_neg hc, if_neg (fun hx => hc (hiff.mpr hx))]

theorem nqAC3Init_eq_skip {n col row r0 : ℕ} {d : List ℕ} {rest : List (List ℕ)}
    (h : r0 = row) :
    nqAC3Init n col row r0 (d :: rest) =
      (d :: (nqAC3Init n col row (r0 + 1) rest).1,
        (nqAC3Init n col row (r0 + 1) rest).2.1,
        (nqAC3Init n col row (r0 + 1) rest).2.2) := by
  rw [nqAC3Init, if_pos h]

theorem nqAC3Init_eq_empty {n col row r0 : ℕ} {d : List ℕ} {rest : List (List ℕ)}
    (h : ¬ r0 = row) (he : (nqFCFilter col (absDiff r0 row) d).isEmpty = true) :
    nqAC3Init n col row r0 (d :: rest) =
      (nqFCFilter col (absDiff r0 row) d :: rest, [], false) := by
  rw [nqAC3Init, if_neg h]
  simp only [he, if_true]

theorem nqAC3Init_eq_cont {n col row r0 : ℕ} {d : List ℕ} {rest : List (List ℕ)}
    (h : ¬ r0 = row) (he : (nqFCFilter col (absDiff r0 row) d).isEmpty = false) :
    nqAC3Init n col row r0 (d :: rest) =
      (nqFCFilter col (absDiff r0 row) d :: (nqAC3Init n col row (r0 + 1) rest).1,
        (if (nqFCFilter col (absDiff r0 row) d).length < d.length then
          (((List.range n).filter (fun k => decide (k ≠ r0) && decide (k ≠ row))).map
            (fun k => (k, r0)))
          else []) ++ (nqAC3Init n col row (r0 + 1) rest).2.1,
        (nqAC3Init n col row (r0 + 1) rest).2.2) := by
  rw [nqAC3Init, if_neg h]
  simp only [he, Bool.false_eq_true, if_false]

theorem nqAC3Init_length (n col row : ℕ) :
    ∀ (ds : List (List ℕ)) (r0 : ℕ),
      (nqAC3Init n col row r0 ds).1.length = ds.length := by
  intro ds
  induction ds with
  | nil => intro r0; rfl
  | cons d rest ih =>
    intro r0
    by_cases h1 : r0 = row
    · rw [nqAC3Init_eq_skip h1]
      simp [ih]
    · by_cases h2 : (nqFCFilter col (absDiff r0 row) d).isEmpty
      · rw [nqAC3Init_eq_empty h1 h2]
        simp
      · rw [nqAC3Init_eq_cont h1 (by simpa using h2)]
        simp [ih]

theorem nqAC3Init_mono (n col row : ℕ) :
    ∀ (ds : List (List ℕ)) (r0 : ℕ) (r : ℕ),
      (nqAC3Init n col row r0 ds).1.getD r [] <+ ds.getD r [] := by
  intro ds
  induction ds with
  | nil => intro r0 r; exact List.Sublist.refl _
  | cons d rest ih =>
    intro r0 r
    by_cases h1 : r0 = row
    · rw [nqAC3Init_eq_skip h1]
      match r with
      | 0 => exact List.Sublist.refl _
      | k + 1 =>
        simp only [List.getD_cons_succ]
        exact ih (r0 + 1) k
    · by_cases h2 : (nqFCFilter col (absDiff r0 row) d).isEmpty
      · rw [nqAC3Init_eq_empty h1 h2]
        match r with
        | 0 =>
          simp only [List.getD_cons_zero]
          exact List.filter_sublist d
        | k + 1 => exact List.Sublist.refl _
      · rw [nqAC3Init_eq_cont h1 (by simpa using h2)]
        match r with
        | 0 =>
          simp only [List.getD_cons_zero]
          exact List.filter_sublist d
        | k + 1 =>
          simp only [List.getD_cons_succ]
          exact ih (r0 + 1) k

theorem nqAC3Init_success_prunes (n col row : ℕ) :
    ∀ (ds : List (List ℕ)) (r0 : ℕ),
      (nqAC3Init n col row r0 ds).2.2 = true →
      ∀ k, r0 + k ≠ row →
        (nqAC3Init n col row r0 ds).1.getD k [] <+
          nqFCFilter col (absDiff (r0 + k) row) (ds.getD k []) := by
  intro ds
  induction ds with
  | nil =>
    intro r0 hok k hk
    simp [nqAC3Init, nqFCFilter]
  | cons d rest ih =>
    intro r0 hok k hk
    by_cases h1 : r0 = row
    · rw [nqAC3Init_eq_skip h1] at hok ⊢
      match k with
      | 0 => omega
      | m + 1 =>
        have hok2 : (nqAC3Init n col row (r0 + 1) rest).2.2 = true := by simpa using hok
        have harith : r0 + (m + 1) = (r0 + 1) + m := by omega
        rw [harith]
        simp only [List.getD_cons_succ]
        exact ih (r0 + 1) hok2 m (by omega)
    · by_cases h2 : (nqFCFilter col (absDiff r0 row) d).isEmpty
      · rw [nqAC3Init_eq_empty h1 h2] at hok
        simp at hok
      · rw [nqAC3Init_eq_cont h1 (by simpa using h2)] at hok ⊢
        match k with
        | 0 =>
          simp only [List.getD_cons_zero, Nat.add_zero]
          exact List.Sublist.refl _
        | m + 1 =>
          have hok2 : (nqAC3Init n col row (r0 + 1) rest).2.2 = true := by simpa using hok
          have harith : r0 + (m + 1) = (r0 + 1) + m := by omega
          rw [harith]
          simp only [List.getD_cons_succ]
          exact ih (r0 + 1) hok2 m (by omega)

theorem nqRevise_length (domains : List (List ℕ)) (xi xj : ℕ) :
    (nqRevise domains xi xj).1.length = domains.length := by
  simp only [nqRevise]
  split
  · simp
  · rfl

theorem nqRevise_mono (domains : List (List ℕ)) (xi xj : ℕ) :
    ∀ r, (nqRevise domains xi xj).1.getD r [] <+ domains.getD r [] := by
  intro r
  simp only [nqRevise]
  split
  · rw [getD_set_eq]
    by_cases hc : xi = r ∧ xi < domains.length
    · rw [if_pos hc, ← hc.1]
      exact List.filter_sublist _
    · rw [if_neg hc]
  · exact List.Sublist.refl _

theorem nqAC3Queue_length (n : ℕ) :
    ∀ fuel (queue : List (ℕ × ℕ)) (domains : List (List ℕ)),
      (nqAC3Queue n fuel queue domains).1.length = domains.length := by
  intro fuel
  induction fuel with
  | zero => intro queue domains; rfl
  | succ m ih =>
    intro queue domains
    match queue with
    | [] => rfl
    | (xi, xj) :: rest =>
      rw [nqAC3Queue]
      split
      · split
        · simp [nqRevise_length]
        · rw [ih]
          simp [nqRevise_length]
      · rw [ih]
        simp [nqRevise_length]

theorem nqAC3Queue_mono (n : ℕ) :
    ∀ fuel (queue : List (ℕ × ℕ)) (domains : List (List ℕ)) (r : ℕ),
      (nqAC3Queue n fuel queue domains).1.getD r [] <+ domains.getD r [] := by
  intro fuel
  induction fuel with
  | zero => intro queue domains r; exact List.Sublist.refl _
  | succ m ih =>
    intro queue domains r
    match queue with
    | [] => exact List.Sublist.refl _
    | (xi, xj) :: rest =>
      rw [nqAC3Queue]
      split
      · split
        · exact nqRevise_mono domains xi xj r
        · exact (ih _ _ r).trans (nqRevise_mono domains xi xj r)
      · exact (ih _ _ r).trans (nqRevise_mono domains xi xj r)

theorem absDiff_of_le (row r : ℕ) (h : row ≤ r) : absDiff r row = r - row := by
  unfold absDiff
  omega

theorem nqStep_sublist (fuel n row col : ℕ) (A F : List (List ℕ))
    (hl : A.length = F.length) (h : ∀ r, A.getD r [] <+ F.getD r [])
    (hok : (nqPropagateAC3 fuel n A row col).2 = true) :
    (nqPropagateAC3 fuel n A row col).1.length = (nqPropagate n row col F).1.length ∧
    ∀ r, (nqPropagateAC3 fuel n A row col).1.getD r [] <+
      (nqPropagate n row col F).1.getD r [] := by
  have hinitok : (nqAC3Init n col row 0 (A.set row [col])).2.2 = true := by
    unfold nqPropagateAC3 at hok
    by_cases hi : (nqAC3Init n col row 0 (A.set row [col])).2.2
    · exact hi
    · rw [if_neg hi] at hok
      simp at hok
  have hres : nqPropagateAC3 fuel n A row col =
      nqAC3Queue n fuel (nqAC3Init n col row 0 (A.set row [col])).2.1
        (nqAC3Init n col row 0 (A.set row [col])).1 := by
    unfold nqPropagateAC3
    rw [if_pos hinitok]
  have h0 : ∀ r, (A.set row [col]).getD r [] <+ (F.set row [col]).getD r [] :=
    set_pointwise_sublist A F hl h row [col]
  have hlen0 : (A.set row [col]).length = (F.set row [col]).length := by
    simp [hl]
  constructor
  · rw [hres, nqAC3Queue_length, nqAC3Init_length]
    unfold nqPropagate
    rw [nqFCPrune_length]
    simp [hl]
  · intro r
    rw [hres]
    have hq : (nqAC3Queue n fuel (nqAC3Init n col row 0 (A.set row [col])).2.1
        (nqAC3Init n col row 0 (A.set row [col])).1).1.getD r [] <+
        (nqAC3Init n col row 0 (A.set row [col])).1.getD r [] :=
      nqAC3Queue_mono n fuel _ _ r
    refine hq.trans ?_
    unfold nqPropagate
    show _ <+ (nqFCPrune col row 0 (F.set row [col])).getD r []
    rw [nqFCPrune_getD]
    by_cases hrow : r = row
    · subst hrow
      rw [if_neg (by omega)]
      exact (nqAC3Init_mono n col r _ 0 r).trans (h0 r)
    · have hstep : (nqAC3Init n col row 0 (A.set row [col])).1.getD r [] <+
          nqFCFilter col (absDiff r row) ((A.set row [col]).getD r []) := by
        have hraw := nqAC3Init_success_prunes n col row (A.set row [col]) 0 hinitok r
          (by simpa using hrow)
        simpa using hraw
      by_cases hcond : r < (F.set row [col]).length ∧ row < 0 + r
      · rw [if_pos hcond]
        refine hstep.trans ?_
        have hd : absDiff r row = r - row := absDiff_of_le row r (by omega)
        have hz : (0 + r) - row = r - row := by omega
        rw [hd, hz]
        exact List.Sublist.filter _ (h0 r)
      · rw [if_neg hcond]
        exact hstep.trans ((List.filter_sublist _).trans (h0 r))

theorem nqPath_sublist (fuel n : ℕ) :
    ∀ (path : List (ℕ × ℕ)) (A F : List (List ℕ)),
      A.length = F.length → (∀ r, A.getD r [] <+ F.getD r []) →
      (nqAC3Path fuel n path A).2 = true →
      ∀ r, (nqAC3Path fuel n path A).1.getD r [] <+ (nqFCPath n path F).getD r [] := by
  intro path
  induction path with
  | nil => intro A F hl h hok r; exact h r
  | cons step rest ih =>
    intro A F hl h hok r
    obtain ⟨row, col⟩ := step
    rw [nqAC3Path] at hok ⊢
    rw [nqFCPath]
    simp only [Bool.and_eq_true] at hok
    obtain ⟨hok1, hok2⟩ := hok
    obtain ⟨hl2, h2⟩ := nqStep_sublist fuel n row col A F hl h hok1
    exact ih _ _ hl2 h2 hok2 r

/-- C6: for every assignment path (the same sequence of `row = col` decisions
from the same initial domains), every value in an AC-3 final domain is also
in the forward-checking final domain for that row: AC-3 prunes at least as
aggressively.  The hypothesis requires every AC-3 step of the path to report
success (on failure the branch is abandoned and no state continues the
path). -/
theorem ac3_path_domains_subset_fc (fuel n : ℕ) (path : List (ℕ × ℕ))
    (d0 : List (List ℕ)) (hok : (nqAC3Path fuel n path d0).2 = true) :
    ∀ r x, x ∈ (nqAC3Path fuel n path d0).1.getD r [] →
      x ∈ (nqFCPath n path d0).getD r [] := by
  intro r x hx
  exact (nqPath_sublist fuel n path d0 d0 rfl (fun _ => List.Sublist.refl _)
    hok r).subset hx

theorem ac3_path_domains_subset_fc_witness :
    (nqAC3Path 50 4 [(0, 1)] [[0,1,2,3],[0,1,2,3],[0,1,2,3],[0,1,2,3]]).2 = true ∧
    (∀ r x, x ∈ (nqAC3Path 50 4 [(0, 1)]
        [[0,1,2,3],[0,1,2,3],[0,1,2,3],[0,1,2,3]]).1.getD r [] →
      x ∈ (nqFCPath 4 [(0, 1)]
        [[0,1,2,3],[0,1,2,3],[0,1,2,3],[0,1,2,3]]).getD r []) :=
  ⟨by decide,
    ac3_path_domains_subset_fc 50 4 [(0, 1)]
      [[0,1,2,3],[0,1,2,3],[0,1,2,3],[0,1,2,3]] (by decide)⟩

theorem lbsSelectStochastic_length {S : Type} [Inhabited S] (pool : List S)
    (weights : List ℚ) (total : ℚ) (rq : ℕ → ℚ) :
    ∀ k t, (lbsSelectStochastic pool weights total rq k t).length = k := by
  intro k
  induction k with
  | zero => intro t; rfl
  | succ m ih => intro t; simp [lbsSelectStochastic, ih]

theorem lbsNextPopulation_length {S : Type} [Inhabited S] (P : LBSProblem S)
    (p : LBSParams) (expw : ℚ → ℚ) (rq : ℕ → ℚ) (pool : List S) (t : ℕ)
    (hpool : pool ≠ []) (hbw : 1 ≤ p.beamWidth) :
    1 ≤ (lbsNextPopulation P p expw rq pool t).length ∧
    (lbsNextPopulation P p expw rq pool t).length ≤ p.beamWidth ∧
    (p.stochastic = true → (lbsNextPopulation P p expw rq pool t).length = p.beamWidth) := by
  have hp1 : 1 ≤ pool.length := by
    cases pool with
    | nil => exact absurd rfl hpool
    | cons a l => simp
  by_cases hst : p.stochastic
  · simp only [lbsNextPopulation, hst, if_true]
    rw [lbsSelectStochastic_length]
    exact ⟨hbw, le_refl _, fun _ => rfl⟩
  · simp only [lbsNextPopulation, hst, Bool.false_eq_true, if_false]
    rw [List.length_take, (List.perm_insertionSort _ _).length_eq]
    refine ⟨?_, ?_, fun hstt => absurd hstt (by simpa using hst)⟩ <;> omega

theorem lbsIterFinish_inv {S : Type} (P : LBSProblem S) (p : LBSParams)
    (restarts evals2 t2 sideways2 : ℕ) (sortedPop : List S) (newBest : S)
    (note : String) (rest : List (LBSRecord S) × Option (Bool × S × List S × ℕ × ℕ))
    (h1 : 1 ≤ sortedPop.length) (h2 : sortedPop.length ≤ p.beamWidth)
    (h3 : p.stochastic = true → sortedPop.length = p.beamWidth)
    (ihm : (∀ r ∈ rest.1,
        1 ≤ r.population.length ∧ r.population.length ≤ p.beamWidth ∧
        (p.stochastic = true → r.population.length = p.beamWidth)) ∧
      (∀ q, rest.2 = some q →
        1 ≤ q.2.2.1.length ∧ q.2.2.1.length ≤ p.beamWidth ∧
        (p.stochastic = true → q.2.2.1.length = p.beamWidth))) :
    (∀ r ∈ (lbsIterFinish P p restarts evals2 t2 sideways2 sortedPop newBest
        note rest).1,
      1 ≤ r.population.length ∧ r.population.length ≤ p.beamWidth ∧
      (p.stochastic = true → r.population.length = p.beamWidth)) ∧
    (∀ q, (lbsIterFinish P p restarts evals2 t2 sideways2 sortedPop newBest
        note rest).2 = some q →
      1 ≤ q.2.2.1.length ∧ q.2.2.1.length ≤ p.beamWidth ∧
      (p.stochastic = true → q.2.2.1.length = p.beamWidth)) := by
  unfold lbsIterFinish
  by_cases hsol : P.isSolution newBest
  · simp only [hsol, if_true]
    refine ⟨?_, ?_⟩
    · intro r hr
      rcases List.mem_cons.mp hr with rfl | hr
      · exact ⟨h1, h2, h3⟩
      · rcases List.mem_singleton.mp hr with rfl
        exact ⟨h1, h2, h3⟩
    · intro q hq
      simp at hq
  · simp only [hsol, Bool.false_eq_true, if_false]
    by_cases hlim : p.maxSideways ≤ sideways2
    · simp only [hlim, if_true]
      refine ⟨?_, ?_⟩
      · intro r hr
        rcases List.mem_singleton.mp hr with rfl
        exact ⟨h1, h2, h3⟩
      · intro q hq
        obtain rfl := Option.some.inj hq
        exact ⟨h1, h2, h3⟩
    · simp only [hlim, if_false]
      refine ⟨?_, ?_⟩
      · intro r hr
        rcases List.mem_cons.mp hr with rfl | hr
        · exact ⟨h1, h2, h3⟩
        · exact ihm.1 r hr
      · intro q hq
        exact ihm.2 q hq

theorem lbsGens_pop_inv {S : Type} [Inhabited S] (P : LBSProblem S) (p : LBSParams)
    (expw : ℚ → ℚ) (rq : ℕ → ℚ) (hbw : 1 ≤ p.beamWidth) :
    ∀ gens gen (population : List S) best bestSoFar sideways restarts evals t,
      1 ≤ population.length → population.length ≤ p.beamWidth →
      (p.stochastic = true → population.length = p.beamWidth) →
      (∀ r ∈ (lbsGens P p expw rq gens gen population best bestSoFar sideways
          restarts evals t).1,
        1 ≤ r.population.length ∧ r.population.length ≤ p.beamWidth ∧
        (p.stochastic = true → r.population.length = p.beamWidth)) ∧
      (∀ q, (lbsGens P p expw rq gens gen population best bestSoFar sideways
          restarts evals t).2 = some q →
        1 ≤ q.2.2.1.length ∧ q.2.2.1.length ≤ p.beamWidth ∧
        (p.stochastic = true → q.2.2.1.length = p.beamWidth)) := by
  intro gens
  induction gens with
  | zero =>
    intro gen population best bestSoFar sideways restarts evals t h1 h2 h3
    refine ⟨?_, ?_⟩
    · intro r hr
      simp [lbsGens] at hr
    · intro q hq
      obtain rfl := Option.some.inj hq
      exact ⟨h1, h2, h3⟩
  | succ m ih =>
    intro gen population best bestSoFar sideways restarts evals t h1 h2 h3
    rw [lbsGens]
    by_cases hsol : P.isSolution best
    · simp only [hsol, if_true]
      refine ⟨?_, ?_⟩
      · intro r hr
        rcases List.mem_singleton.mp hr with rfl
        exact ⟨h1, h2, h3⟩
      · intro q hq
        simp at hq
    · simp only [hsol, Bool.false_eq_true, if_false]
      by_cases hpool :
          (population.foldr (fun s acc => P.neighbors s ++ acc) []).isEmpty
      · simp only [hpool, if_true]
        refine ⟨?_, ?_⟩
        · intro r hr
          simp at hr
        · intro q hq
          obtain rfl := Option.some.inj hq
          exact ⟨h1, h2, h3⟩
      · simp only [hpool, Bool.false_eq_true, if_false]
        have hpoolne :
            (population.foldr (fun s acc => P.neighbors s ++ acc) []) ≠ [] := by
          intro hc
          rw [hc] at hpool
          simp at hpool
        have hnp := lbsNextPopulation_length P p expw rq
          (population.foldr (fun s acc => P.neighbors s ++ acc) []) t hpoolne hbw
        have hsa : (List.insertionSort (fun a b => P.cost a ≤ P.cost b)
            (lbsNextPopulation P p expw rq
              (population.foldr (fun s acc => P.neighbors s ++ acc) []) t)).length =
            (lbsNextPopulation P p expw rq
              (population.foldr (fun s acc => P.neighbors s ++ acc) []) t).length :=
          (List.perm_insertionSort _ _).length_eq
        have ha := hsa ▸ hnp.1
        have hb := hsa ▸ hnp.2.1
        have hc : p.stochastic = true →
            (List.insertionSort (fun a b => P.cost a ≤ P.cost b)
              (lbsNextPopulation P p expw rq
                (population.foldr (fun s acc => P.neighbors s ++ acc) []) t)).length =
              p.beamWidth := fun hstt => hsa.trans (hnp.2.2 hstt)
        exact lbsIterFinish_inv P p restarts _ _ _ _ _ _ _ ha hb hc
          (ih _ _ _ _ _ _ _ _ ha hb hc)
theorem lbsOuter_pop_inv {S : Type} [Inhabited S] (P : LBSProblem S) (p : LBSParams)
    (expw : ℚ → ℚ) (rng : ℕ → ℕ) (rq : ℕ → ℚ) (hbw : 1 ≤ p.beamWidth) :
    ∀ fuel restarts evals t, ∀ r ∈ lbsOuter P p expw rng rq fuel restarts evals t,
      1 ≤ r.population.length ∧ r.population.length ≤ p.beamWidth ∧
      (p.stochastic = true → r.population.length = p.beamWidth) := by
  intro fuel
  induction fuel with
  | zero =>
    intro restarts evals t r hr
    simp [lbsOuter] at hr
  | succ m ih =>
    intro restarts evals t r hr
    simp only [lbsOuter] at hr
    have hlen : (List.insertionSort (fun a b => P.cost a ≤ P.cost b)
        ((List.range p.beamWidth).map (fun i => P.randomState (rng (t + i))))).length =
        p.beamWidth := by
      rw [(List.perm_insertionSort _ _).length_eq, List.length_map, List.length_range]
    have hg := lbsGens_pop_inv P p expw rq hbw p.maxGenerations 1
      (List.insertionSort (fun a b => P.cost a ≤ P.cost b)
        ((List.range p.beamWidth).map (fun i => P.randomState (rng (t + i)))))
      ((List.insertionSort (fun a b => P.cost a ≤ P.cost b)
        ((List.range p.beamWidth).map (fun i => P.randomState (rng (t + i))))).getD 0 default)
      ((List.insertionSort (fun a b => P.cost a ≤ P.cost b)
        ((List.range p.beamWidth).map (fun i => P.randomState (rng (t + i))))).getD 0 default)
      0 restarts (evals + p.beamWidth) (t + p.beamWidth)
      (by rw [hlen]; exact hbw) (le_of_eq hlen) (fun _ => hlen)
    rcases List.mem_cons.mp hr with rfl | hr
    · exact ⟨by rw [hlen]; exact hbw, le_of_eq hlen, fun _ => hlen⟩
    · rcases List.mem_append.mp hr with hr | hr
      · exact hg.1 r hr
      · rcases hq : (lbsGens P p expw rq p.maxGenerations 1
            (List.insertionSort (fun a b => P.cost a ≤ P.cost b)
              ((List.range p.beamWidth).map (fun i => P.randomState (rng (t + i)))))
            ((List.insertionSort (fun a b => P.cost a ≤ P.cost b)
              ((List.range p.beamWidth).map
                (fun i => P.randomState (rng (t + i))))).getD 0 default)
            ((List.insertionSort (fun a b => P.cost a ≤ P.cost b)
              ((List.range p.beamWidth).map
                (fun i => P.randomState (rng (t + i))))).getD 0 default)
            0 restarts (evals + p.beamWidth) (t + p.beamWidth)).2 with
          _ | ⟨stuck, bestF, popF, evalsF, tF⟩
        · rw [hq] at hr
          simp at hr
        · rw [hq] at hr
          have hpopF := hg.2 _ hq
          simp only at hr
          split_ifs at hr with hstuck hmax
          · rcases List.mem_cons.mp hr with rfl | hr
            · exact hpopF
            · exact ih _ _ _ r hr
          · rcases List.mem_singleton.mp hr with rfl
            exact hpopF
          · exact ih _ _ _ r hr

/-- C4 (amended): every step record emitted by `localBeamSearch` carries a
population of length between 1 and `beamWidth` inclusive, and in the
stochastic variant the length is always exactly `beamWidth`; in the
deterministic variant the length is `min(pool, beamWidth)`, which is strictly
below `beamWidth` whenever the non-empty successor pool has fewer than
`beamWidth` candidates, so the original claim of exact equality fails there. -/
theorem localBeamSearch_population_bounds {S : Type} [Inhabited S]
    (P : LBSProblem S) (p : LBSParams) (expw : ℚ → ℚ) (rng : ℕ → ℕ) (rq : ℕ → ℚ)
    (fuel : ℕ) (hbw : 1 ≤ p.beamWidth) :
    ∀ r ∈ localBeamSearch P p expw rng rq fuel,
      1 ≤ r.population.length ∧ r.population.length ≤ p.beamWidth ∧
      (p.stochastic = true → r.population.length = p.beamWidth) := by
  intro r hr
  exact lbsOuter_pop_inv P p expw rng rq hbw fuel 0 0 0 r hr

/-- Witness for C4 on a concrete deterministic run of the demo problem. -/
theorem localBeamSearch_population_bounds_witness :
    1 ≤ (⟨2, false, 5, 0, 0⟩ : LBSParams).beamWidth ∧
    ∀ r ∈ localBeamSearch lbsDemoProblem ⟨2, false, 5, 0, 0⟩ (fun q => q)
        (fun i => i) (fun _ => 0) 3,
      1 ≤ r.population.length ∧
      r.population.length ≤ (⟨2, false, 5, 0, 0⟩ : LBSParams).beamWidth ∧
      ((⟨2, false, 5, 0, 0⟩ : LBSParams).stochastic = true →
        r.population.length = (⟨2, false, 5, 0, 0⟩ : LBSParams).beamWidth) :=
  ⟨by decide, localBeamSearch_population_bounds lbsDemoProblem ⟨2, false, 5, 0, 0⟩
    (fun q => q) (fun i => i) (fun _ => 0) 3 (by decide)⟩

/-- C4 counterexample: a deterministic run with `beamWidth = 2` in which the
successor pool of the initial beam `[0, 1]` is the single state `2`, so the
population emitted after generation 1 has length `1 ≠ 2 = beamWidth`. -/
theorem localBeamSearch_population_counterexample :
    localBeamSearch lbsDemoProblem ⟨2, false, 5, 0, 0⟩ (fun q => q) (fun i => i)
        (fun _ => 0) 3 =
      [⟨0, [0, 1], "Beam Init(k = 2)", 0, 2⟩,
       ⟨2, [2], "Gen 1 Sideways(1 / 0)", 0, 3⟩,
       ⟨2, [2], "Stuck (Max Restarts Reached)", 0, 3⟩] ∧
    ((localBeamSearch lbsDemoProblem ⟨2, false, 5, 0, 0⟩ (fun q => q) (fun i => i)
        (fun _ => 0) 3).getD 1 ⟨0, [], "", 0, 0⟩).population.length = 1 ∧
    (1 : ℕ) ≠ (⟨2, false, 5, 0, 0⟩ : LBSParams).beamWidth := by
  refine ⟨?_, ?_, by decide⟩ <;>
    norm_num [localBeamSearch, lbsOuter, lbsGens, lbsIterFinish, lbsNextPopulation,
      lbsDemoProblem, ratToFixed2] <;> decide

end GAVis
